import Mathlib

/-!
Verification development for the media downloader repository
(grab_images.py, video_downloader.py).

The Python source is shallowly embedded: pure string/URL manipulation is
translated to executable Lean functions on `String` and `List Char`;
stateful methods become explicit state-passing functions; network and
filesystem effects are modelled by explicit environment parameters
(per-attempt outcomes) and by state fields recording fetches, sleeps,
CSV rows and on-disk files.  Thread-interleaved executions are modelled
by small-step systems driven by an explicit schedule.
-/

namespace MediaDL

/-! ## Generic string helpers -/

/-- Lowercase every character of a string (models Python `str.lower` on
the ASCII strings handled here). -/
def strLower (s : String) : String :=
  String.mk (s.toList.map Char.toLower)

/-- Is `needle` a contiguous sublist of `hay`? -/
def listSub (needle : List Char) : List Char → Bool
  | [] => needle.isEmpty
  | c :: rest => needle.isPrefixOf (c :: rest) || listSub needle rest

/-- Is `needle` a contiguous substring of `hay` (Python `needle in hay`)? -/
def subOf (needle hay : String) : Bool :=
  listSub needle.toList hay.toList

/-- Does `s` end with `suf` (Python `str.endswith`)? -/
def endsWith (suf s : String) : Bool :=
  suf.toList.reverse.isPrefixOf s.toList.reverse

/-- Python `str.startswith`. -/
def strStartsWith (p s : String) : Bool :=
  p.toList.isPrefixOf s.toList

/-- `os.path.basename`: the part of a path after the last slash. -/
def basename (p : String) : String :=
  String.mk ((p.toList.reverse.takeWhile (fun c => c != '/')).reverse)

/-! ## URL parsing

`urllib.parse.urlparse` restricted to the URL shapes this program
handles: `scheme://netloc/path?query#fragment`, where any of the parts
after the netloc may be absent.  This is the slice of `urlparse`
behaviour that `normalize_url` and the filename filters rely on. -/

structure UrlParts where
  scheme : String
  netloc : String
  path : String
  query : String
  fragment : String
deriving Repr, DecidableEq

/-- Split a character list at the first occurrence of `sep`:
returns the part before and, when `sep` occurs, the part after it. -/
def splitFirst (sep : Char) : List Char → List Char × Option (List Char)
  | [] => ([], none)
  | c :: rest =>
    if c = sep then ([], some rest)
    else
      let (a, b) := splitFirst sep rest
      (c :: a, b)

/-- Take characters up to (excluding) the first character satisfying
none of the continue conditions; used to cut netloc and path. -/
def takeUntil (stop : Char → Bool) (l : List Char) : List Char × List Char :=
  (l.takeWhile (fun c => !stop c), l.dropWhile (fun c => !stop c))

/-- Model of `urllib.parse.urlparse` on absolute and relative URLs of
the shapes exercised by this program. -/
def urlparse (url : String) : UrlParts :=
  let cs := url.toList
  let (beforeFrag, fragOpt) := splitFirst '#' cs
  let fragment := (fragOpt.getD []).asString
  let (beforeQ, qOpt) := splitFirst '?' beforeFrag
  let query := (qOpt.getD []).asString
  -- scheme://netloc prefix, if present
  let (schemeNetloc, path) :=
    if listSub "://".toList beforeQ then
      let (scheme, afterColon) := splitFirst ':' beforeQ
      -- afterColon begins with "//"
      let hostRest := afterColon.getD [] |>.drop 2
      let (netloc, rest) := takeUntil (fun c => c = '/') hostRest
      ((scheme.asString, netloc.asString), rest)
    else (("", ""), beforeQ)
  { scheme := schemeNetloc.1, netloc := schemeNetloc.2,
    path := path.asString, query := query, fragment := fragment }

/-- `ImageDownloader.normalize_url`: keep scheme, netloc and path, drop
params, query and fragment (`urlunparse((scheme, netloc, path, '', '', ''))`). -/
def normalizeUrl (url : String) : String :=
  let p := urlparse url
  (if p.scheme ≠ "" then p.scheme ++ ":" else "")
    ++ (if p.netloc ≠ "" then "//" ++ p.netloc else "")
    ++ p.path

/-- `VideoDownloader.normalize_url`: keep scheme, netloc, path, params
and query, drop only the fragment. -/
def vidNormalizeUrl (url : String) : String :=
  let p := urlparse url
  (if p.scheme ≠ "" then p.scheme ++ ":" else "")
    ++ (if p.netloc ≠ "" then "//" ++ p.netloc else "")
    ++ p.path
    ++ (if p.query ≠ "" then "?" ++ p.query else "")

/-! ## BloomFilter (grab_images.py lines 48-62)

The Python `bit_array` list is modelled as a function `Nat → Bool`;
Python `hash` is an environment parameter `h : String → Nat` applied to
`item + str(i)` exactly as the source does. -/

structure BloomFilter where
  size : Nat
  hashCount : Nat
  bits : Nat → Bool

namespace BloomFilter

/-- `BloomFilter.add`: set the bit at `hash(item + str(i)) % size` for
each `i < hash_count`. -/
def add (h : String → Nat) (bf : BloomFilter) (item : String) : BloomFilter :=
  { bf with
    bits := fun j =>
      bf.bits j ||
        (List.range bf.hashCount).any
          (fun i => decide (h (item ++ toString i) % bf.size = j)) }

/-- `BloomFilter.contains`: all `hash_count` bits for the item are set. -/
def contains (h : String → Nat) (bf : BloomFilter) (item : String) : Bool :=
  (List.range bf.hashCount).all
    (fun i => bf.bits (h (item ++ toString i) % bf.size))

theorem contains_add_self (h : String → Nat) (bf : BloomFilter) (x : String) :
    (bf.add h x).contains h x = true := by
  simp only [contains, add, List.all_eq_true]
  intro i hi
  simp only [Bool.or_eq_true, List.any_eq_true]
  right
  exact ⟨i, hi, by simp⟩

theorem contains_mono (h : String → Nat) (bf : BloomFilter) (x y : String)
    (hx : bf.contains h x = true) : (bf.add h y).contains h x = true := by
  simp only [contains, add, List.all_eq_true] at hx ⊢
  intro i hi
  simp [hx i hi]

/-- Folding a sequence of `add` operations over a filter. -/
def addAll (h : String → Nat) (bf : BloomFilter) (ops : List String) : BloomFilter :=
  ops.foldl (fun b item => b.add h item) bf

theorem contains_addAll_mono (h : String → Nat) (bf : BloomFilter)
    (ops : List String) (x : String) (hx : bf.contains h x = true) :
    (bf.addAll h ops).contains h x = true := by
  induction ops generalizing bf with
  | nil => simpa [addAll] using hx
  | cons a rest ih =>
    simp only [addAll, List.foldl_cons]
    exact ih (bf.add h a) (contains_mono h bf x a hx)

theorem contains_addAll_of_mem (h : String → Nat) (bf : BloomFilter)
    (ops : List String) (x : String) (hx : x ∈ ops) :
    (bf.addAll h ops).contains h x = true := by
  induction ops generalizing bf with
  | nil => cases hx
  | cons a rest ih =>
    rcases List.mem_cons.mp hx with rfl | hmem
    · simp only [addAll, List.foldl_cons]
      exact contains_addAll_mono h (bf.add h x) rest x (contains_add_self h bf x)
    · simpa [addAll] using ih (bf.add h a) hmem

end BloomFilter

/-! ## Crawl scheduler (ImageDownloader.crawl, grab_images.py lines 802-863)

Page fetching and media downloads are driven from a single control
thread; for the page-level claims (C2, C10) only the queue/visited/
processed bookkeeping matters, so the per-page download work is elided
and the network is an environment: `links url` is the set of
same-domain links `process_page` would return for `url` (already
normalized by `extract_links`), and `canFetch` is the robots gate. -/

structure CrawlConfig where
  depth : Nat
  maxPages : Nat
  useBloom : Bool
  hashFn : String → Nat
  links : String → List String
  canFetch : String → Bool

structure CrawlState where
  queue : List (String × Nat)
  bloom : BloomFilter
  visitedSet : List String
  processed : List (String × Nat)

/-- The visit-membership check of the crawl loop: `visited_urls` is the
bloom filter in bloom mode and the exact set otherwise. -/
def visitedCheck (cfg : CrawlConfig) (s : CrawlState) (u : String) : Bool :=
  if cfg.useBloom then s.bloom.contains cfg.hashFn u else s.visitedSet.contains u

/-- Mark a normalized URL visited: `visited_urls.add` (bloom or set)
followed by `visited_urls_set.add` (lines 813-822). -/
def markVisited (cfg : CrawlConfig) (s : CrawlState) (n : String) : CrawlState :=
  if cfg.useBloom then
    { s with bloom := s.bloom.add cfg.hashFn n, visitedSet := s.visitedSet ++ [n] }
  else
    { s with visitedSet := s.visitedSet ++ [n] }

/-- One iteration of the crawl loop body for a dequeued `(url, d)` with
remaining queue `rest`: normalize, skip if visited, mark visited, robots
gate, count the page as processed, and enqueue unvisited links at depth
`d + 1` when `d < depth`. -/
def crawlStep (cfg : CrawlConfig) (url : String) (d : Nat)
    (rest : List (String × Nat)) (s : CrawlState) : CrawlState :=
  let normalized := normalizeUrl url
  if visitedCheck cfg s normalized then { s with queue := rest }
  else
    let s1 := markVisited cfg { s with queue := rest } normalized
    if cfg.canFetch url then
      let s2 := { s1 with processed := s1.processed ++ [(url, d)] }
      if d < cfg.depth then
        { s2 with
          queue := s2.queue ++
            (((cfg.links url).filter (fun l => !(visitedCheck cfg s2 l))).map
              (fun l => (l, d + 1))) }
      else s2
    else s1

/-- The crawl loop: `while queue and pages_processed < max_pages`.
`fuel` bounds the number of iterations (the Python loop may run
unboundedly when `links` keeps producing fresh URLs). -/
def crawlLoop (cfg : CrawlConfig) : Nat → CrawlState → CrawlState
  | 0, s => s
  | fuel + 1, s =>
    match s.queue with
    | [] => s
    | (url, d) :: rest =>
      if s.processed.length < cfg.maxPages then
        crawlLoop cfg fuel (crawlStep cfg url d rest s)
      else s

/-- Initial crawl state: `queue = deque([(base_url, 0)])`, nothing
visited or processed. -/
def initCrawlState (base : String) : CrawlState :=
  { queue := [(base, 0)]
    bloom := { size := 10000000, hashCount := 3, bits := fun _ => false }
    visitedSet := []
    processed := [] }

def crawl (cfg : CrawlConfig) (base : String) (fuel : Nat) : CrawlState :=
  crawlLoop cfg fuel (initCrawlState base)

/-! ### Crawl invariants -/

theorem crawlStep_processed (cfg : CrawlConfig) (url : String) (d : Nat)
    (rest : List (String × Nat)) (s : CrawlState) :
    (crawlStep cfg url d rest s).processed = s.processed ∨
      (crawlStep cfg url d rest s).processed = s.processed ++ [(url, d)] := by
  simp only [crawlStep, markVisited]
  split_ifs <;> simp

theorem crawlStep_queue_depth (cfg : CrawlConfig) (url : String) (d : Nat)
    (rest : List (String × Nat)) (s : CrawlState)
    (hd : d ≤ cfg.depth) (hrest : ∀ p ∈ rest, p.2 ≤ cfg.depth) :
    ∀ p ∈ (crawlStep cfg url d rest s).queue, p.2 ≤ cfg.depth := by
  simp only [crawlStep, markVisited]
  split_ifs with h1 h2 h3 h4 h5 h6 h7 <;>
    intro p hp <;>
    simp only [List.mem_append, List.mem_map, List.mem_filter] at hp <;>
    first
      | exact hrest p hp
      | (rcases hp with hp | ⟨l, _, rfl⟩
         · exact hrest p hp
         · omega)

theorem crawlLoop_bounds (cfg : CrawlConfig) (fuel : Nat) (s : CrawlState)
    (hq : ∀ p ∈ s.queue, p.2 ≤ cfg.depth)
    (hp : ∀ p ∈ s.processed, p.2 ≤ cfg.depth)
    (hl : s.processed.length ≤ cfg.maxPages) :
    (∀ p ∈ (crawlLoop cfg fuel s).processed, p.2 ≤ cfg.depth) ∧
      (crawlLoop cfg fuel s).processed.length ≤ cfg.maxPages := by
  induction fuel generalizing s with
  | zero => exact ⟨hp, hl⟩
  | succ fuel ih =>
    rcases hqs : s.queue with _ | ⟨⟨url, d⟩, rest⟩
    · simp only [crawlLoop, hqs]
      exact ⟨hp, hl⟩
    · simp only [crawlLoop, hqs]
      split
      · rename_i hlen
        have hdurl : d ≤ cfg.depth := hq (url, d) (by simp [hqs])
        have hrest : ∀ p ∈ rest, p.2 ≤ cfg.depth := by
          intro p hpmem; exact hq p (by simp [hqs, hpmem])
        refine ih (crawlStep cfg url d rest s) ?_ ?_ ?_
        · exact crawlStep_queue_depth cfg url d rest s hdurl hrest
        · rcases crawlStep_processed cfg url d rest s with h | h <;> rw [h]
          · exact hp
          · intro p hpmem
            rcases List.mem_append.mp hpmem with h1 | h1
            · exact hp p h1
            · simp only [List.mem_singleton] at h1; subst h1; exact hdurl
        · rcases crawlStep_processed cfg url d rest s with h | h <;> rw [h]
          · omega
          · simp only [List.length_append, List.length_singleton]; omega
      · exact ⟨hp, hl⟩

/-- Once `max_pages` pages are processed the loop dequeues nothing
further, whatever remains in the queue. -/
theorem crawlLoop_halts (cfg : CrawlConfig) (fuel : Nat) (s : CrawlState)
    (h : cfg.maxPages ≤ s.processed.length) : crawlLoop cfg fuel s = s := by
  cases fuel with
  | zero => rfl
  | succ fuel =>
    rcases hqs : s.queue with _ | ⟨⟨url, d⟩, rest⟩
    · simp [crawlLoop, hqs]
    · simp only [crawlLoop, hqs]
      split
      · omega
      · rfl

/-! ### Crawl visited-once invariant (bloom and exact modes) -/

theorem visitedCheck_markVisited_self (cfg : CrawlConfig) (s : CrawlState)
    (n : String) : visitedCheck cfg (markVisited cfg s n) n = true := by
  simp only [visitedCheck, markVisited]
  split_ifs with h1
  · simpa [h1] using BloomFilter.contains_add_self cfg.hashFn s.bloom n
  · simp [h1]

theorem visitedCheck_markVisited_mono (cfg : CrawlConfig) (s : CrawlState)
    (n u : String) (h : visitedCheck cfg s u = true) :
    visitedCheck cfg (markVisited cfg s n) u = true := by
  simp only [visitedCheck, markVisited] at h ⊢
  split_ifs at h ⊢ with h1
  · simpa [h1] using BloomFilter.contains_mono cfg.hashFn s.bloom u n h
  · simp only [List.contains, List.elem_eq_mem, List.mem_append, decide_eq_true_eq] at h ⊢
    exact Or.inl h

/-- `visitedCheck` ignores the queue field. -/
theorem visitedCheck_queue (cfg : CrawlConfig) (s : CrawlState)
    (q : List (String × Nat)) (u : String) :
    visitedCheck cfg { s with queue := q } u = visitedCheck cfg s u := rfl

/-- `crawlStep` never removes from the bloom filter or the visited set,
so visitedness is stable across a step. -/
theorem visitedCheck_crawlStep_mono (cfg : CrawlConfig) (url : String)
    (d : Nat) (rest : List (String × Nat)) (s : CrawlState) (u : String)
    (h : visitedCheck cfg s u = true) :
    visitedCheck cfg (crawlStep cfg url d rest s) u = true := by
  have h1 : visitedCheck cfg (markVisited cfg { s with queue := rest } (normalizeUrl url)) u = true :=
    visitedCheck_markVisited_mono cfg _ _ u (by rw [visitedCheck_queue]; exact h)
  simp only [crawlStep]
  split_ifs <;> first | exact h | exact h1

/-- If `crawlStep` records a new processed page, the dequeued URL was
unvisited before the step and is visited afterwards. -/
theorem crawlStep_new_processed (cfg : CrawlConfig) (url : String) (d : Nat)
    (rest : List (String × Nat)) (s : CrawlState)
    (h : (crawlStep cfg url d rest s).processed = s.processed ++ [(url, d)]) :
    visitedCheck cfg s (normalizeUrl url) = false ∧
      visitedCheck cfg (crawlStep cfg url d rest s) (normalizeUrl url) = true := by
  have hself : visitedCheck cfg (markVisited cfg { s with queue := rest } (normalizeUrl url))
      (normalizeUrl url) = true := visitedCheck_markVisited_self cfg _ _
  simp only [crawlStep] at h ⊢
  split_ifs at h ⊢ with h1 h2 h3
  · exfalso
    have := congrArg List.length h
    simp only [List.length_append, List.length_singleton] at this
    omega
  · exact ⟨by simpa using h1, hself⟩
  · exact ⟨by simpa using h1, hself⟩
  · exfalso
    simp only [markVisited] at h
    split_ifs at h
    all_goals
      have hlen := congrArg List.length h
      simp only [List.length_append, List.length_singleton] at hlen
      omega

/-- Processed pages are all marked visited, and their normalized URLs
are pairwise distinct. -/
theorem crawlLoop_nodup (cfg : CrawlConfig) (fuel : Nat) (s : CrawlState)
    (hvis : ∀ p ∈ s.processed, visitedCheck cfg s (normalizeUrl p.1) = true)
    (hnd : ((s.processed.map (fun p => normalizeUrl p.1))).Nodup) :
    (∀ p ∈ (crawlLoop cfg fuel s).processed,
        visitedCheck cfg (crawlLoop cfg fuel s) (normalizeUrl p.1) = true) ∧
      (((crawlLoop cfg fuel s).processed.map (fun p => normalizeUrl p.1))).Nodup := by
  induction fuel generalizing s with
  | zero => exact ⟨hvis, hnd⟩
  | succ fuel ih =>
    rcases hqs : s.queue with _ | ⟨⟨url, d⟩, rest⟩
    · simp only [crawlLoop, hqs]
      exact ⟨hvis, hnd⟩
    · simp only [crawlLoop, hqs]
      split
      · refine ih (crawlStep cfg url d rest s) ?_ ?_
        · intro p hpmem
          have hmono := visitedCheck_crawlStep_mono cfg url d rest s
          rcases crawlStep_processed cfg url d rest s with h | h
          · rw [h] at hpmem
            exact hmono (normalizeUrl p.1) (hvis p hpmem)
          · rw [h] at hpmem
            rcases List.mem_append.mp hpmem with h1 | h1
            · exact hmono (normalizeUrl p.1) (hvis p h1)
            · simp only [List.mem_singleton] at h1; subst h1
              exact (crawlStep_new_processed cfg url d rest s h).2
        · rcases crawlStep_processed cfg url d rest s with h | h
          · rw [h]; exact hnd
          · rw [h, List.map_append]
            simp only [List.map_cons, List.map_nil]
            rw [List.nodup_append]
            refine ⟨hnd, List.nodup_singleton _, ?_⟩
            intro x hx hxs
            simp only [List.mem_singleton] at hxs
            subst hxs
            simp only [List.mem_map] at hx
            obtain ⟨p, hpmem, hpx⟩ := hx
            have hvisited := hvis p hpmem
            rw [hpx] at hvisited
            have hfresh := (crawlStep_new_processed cfg url d rest s h).1
            rw [hvisited] at hfresh
            cases hfresh
      · exact ⟨hvis, hnd⟩

/-! ### Claim theorems about the crawl loop -/

/-- C2: for every run of `ImageDownloader.crawl` with maximum depth `D`
and page budget `P`, no page whose depth exceeds `D` is ever fetched
(links are enqueued at `depth + 1` only when the current depth is
strictly below `D`), at most `P` pages are processed, and the loop stops
dequeuing as soon as `P` pages have been processed, even if the queue is
non-empty. -/
theorem C2_depth_and_page_budget (cfg : CrawlConfig) (base : String) (fuel : Nat) :
    (∀ p ∈ (crawl cfg base fuel).processed, p.2 ≤ cfg.depth) ∧
      (crawl cfg base fuel).processed.length ≤ cfg.maxPages ∧
      (∀ s : CrawlState, cfg.maxPages ≤ s.processed.length →
        crawlLoop cfg fuel s = s) := by
  have hb := crawlLoop_bounds cfg fuel (initCrawlState base)
    (by intro p hp; simp only [initCrawlState, List.mem_singleton] at hp; subst hp; exact Nat.zero_le _)
    (by intro p hp; simp [initCrawlState] at hp)
    (by simp [initCrawlState])
  exact ⟨hb.1, hb.2, fun s hs => crawlLoop_halts cfg fuel s hs⟩

/-- C10: the bloom filter has no false negatives — after any sequence of
`add` operations that includes `add x`, `contains x` is `True` — and
consequently in bloom-filter visited-tracking mode a page URL marked
visited is never processed a second time within a run (the processed
pages of a crawl have pairwise distinct normalized URLs). -/
theorem C10_bloom_no_false_negatives :
    (∀ (h : String → Nat) (bf : BloomFilter) (ops : List String) (x : String),
        x ∈ ops → (bf.addAll h ops).contains h x = true) ∧
      (∀ (cfg : CrawlConfig) (base : String) (fuel : Nat), cfg.useBloom = true →
        (((crawl cfg base fuel).processed.map (fun p => normalizeUrl p.1))).Nodup) := by
  constructor
  · exact fun h bf ops x hx => BloomFilter.contains_addAll_of_mem h bf ops x hx
  · intro cfg base fuel _
    exact (crawlLoop_nodup cfg fuel (initCrawlState base)
      (by intro p hp; simp [initCrawlState] at hp)
      (by simp [initCrawlState])).2

theorem C2_depth_and_page_budget_witness :
    crawlLoop
        { depth := 1, maxPages := 1, useBloom := false,
          hashFn := fun s => s.length, links := fun _ => [],
          canFetch := fun _ => true } 5
        { queue := [("http://a/y", 0)],
          bloom := { size := 7, hashCount := 2, bits := fun _ => false },
          visitedSet := [], processed := [("http://a/x", 0)] } =
      { queue := [("http://a/y", 0)],
        bloom := { size := 7, hashCount := 2, bits := fun _ => false },
        visitedSet := [], processed := [("http://a/x", 0)] } :=
  (C2_depth_and_page_budget
      { depth := 1, maxPages := 1, useBloom := false,
        hashFn := fun s => s.length, links := fun _ => [],
        canFetch := fun _ => true } "http://a/x" 5).2.2
    { queue := [("http://a/y", 0)],
      bloom := { size := 7, hashCount := 2, bits := fun _ => false },
      visitedSet := [], processed := [("http://a/x", 0)] }
    (by decide)

/-- A concrete crawl configuration in bloom mode, used by the C10 witness. -/
def c10cfg : CrawlConfig :=
  { depth := 1, maxPages := 10, useBloom := true
    hashFn := fun s => s.length
    links := fun _ => []
    canFetch := fun _ => true }

theorem C10_bloom_no_false_negatives_witness :
    (({ size := 7, hashCount := 2, bits := fun _ => false } : BloomFilter).addAll
        (fun s => s.length) ["a", "b"]).contains (fun s => s.length) "a" = true ∧
      (((crawl c10cfg "http://a/x" 5).processed.map (fun p => normalizeUrl p.1))).Nodup :=
  ⟨C10_bloom_no_false_negatives.1 (fun s => s.length) _ ["a", "b"] "a" (by simp),
   C10_bloom_no_false_negatives.2 c10cfg "http://a/x" 5 rfl⟩

/-! ## Image candidate filters (grab_images.py lines 321-379)

Each filter takes the image URL and returns `(skip?, reason)` exactly as
the Python methods do.  The regular expressions are translated to
executable matchers; each translation is justified in its doc comment. -/

/-- `int(...)` on a decimal digit string. -/
def digitsToNat (l : List Char) : Nat :=
  l.foldl (fun acc c => acc * 10 + (c.toNat - 48)) 0

/-- `_should_skip_by_extension` (lines 321-331).  The pattern
`(?i)(?:/thumbs?/|[-_](?:thumb|thumbnail))` matches the lowercased path
iff it contains `/thumb/`, `/thumbs/`, `-thumb` or `_thumb` (a match of
`[-_]thumbnail` begins with a match of `[-_]thumb`). -/
def shouldSkipByExtension (imgUrl : String) : Bool × String :=
  let path := strLower (urlparse imgUrl).path
  if subOf "/thumb/" path || subOf "/thumbs/" path ||
      subOf "-thumb" path || subOf "_thumb" path then
    (true, "skipped_thumbnail_url_pattern")
  else if endsWith ".svg" path || endsWith ".svgz" path then
    (true, "skipped_svg_extension")
  else (false, "")

/-- Strip a reversed `.png` / `.jpeg` / `.jpg` / `.webp` extension from a
reversed filename (the `\.(png|jpg|jpeg|webp)$` tail of the
square-thumbnail regex). -/
def stripRevExt : List Char → Option (List Char)
  | 'g' :: 'n' :: 'p' :: '.' :: r => some r
  | 'g' :: 'e' :: 'p' :: 'j' :: '.' :: r => some r
  | 'g' :: 'p' :: 'j' :: '.' :: r => some r
  | 'p' :: 'b' :: 'e' :: 'w' :: '.' :: r => some r
  | _ => none

/-- Matcher for `re.search(r'-(\d{2,4})x(\d{2,4})\.(png|jpg|jpeg|webp)$', filename)`.
Because the pattern is anchored at the end and each digit group must be
flanked by the literal `-`, `x` and `.`, a match (if any) is unique: the
two digit groups are the maximal digit runs before the extension dot and
before the `x`, and each must have 2-4 digits.  Parsing proceeds from
the reversed filename. -/
def parseSquareDims (filename : List Char) : Option (Nat × Nat) :=
  match stripRevExt filename.reverse with
  | none => none
  | some r1 =>
    let d2 := r1.takeWhile Char.isDigit
    let r2 := r1.dropWhile Char.isDigit
    if 2 ≤ d2.length ∧ d2.length ≤ 4 then
      match r2 with
      | 'x' :: r3 =>
        let d1 := r3.takeWhile Char.isDigit
        let r4 := r3.dropWhile Char.isDigit
        if 2 ≤ d1.length ∧ d1.length ≤ 4 then
          match r4 with
          | '-' :: _ => some (digitsToNat d1.reverse, digitsToNat d2.reverse)
          | _ => none
        else none
      | _ => none
    else none

/-- `_should_skip_square_thumbnail_filename` (lines 333-347): skip when
the filename encodes square dimensions of at most 512. -/
def shouldSkipSquareThumbnailFilename (imgUrl : String) : Bool × String :=
  match parseSquareDims (basename (strLower (urlparse imgUrl).path)).toList with
  | none => (false, "")
  | some (w, h) =>
    if w = h ∧ w ≤ 512 then (true, "skipped_square_thumbnail_filename")
    else (false, "")

/-- Keyword search with boundary classes, modelling
`(?:^|[B])(kw1|kw2|...)(?:[B]|$)`: some keyword occurs in the string
with a boundary-class character (or the string edge) on both sides. -/
def kwMatchAt (isB : Char → Bool) (kw : List Char) (prevOk : Bool)
    (l : List Char) : Bool :=
  prevOk && kw.isPrefixOf l &&
    (match l.drop kw.length with
     | [] => true
     | c :: _ => isB c)

def kwSearchFrom (isB : Char → Bool) (kws : List (List Char)) :
    Bool → List Char → Bool
  | prevOk, [] => kws.any (fun kw => kwMatchAt isB kw prevOk [])
  | prevOk, c :: rest =>
    kws.any (fun kw => kwMatchAt isB kw prevOk (c :: rest)) ||
      kwSearchFrom isB kws (isB c) rest

def kwSearch (isB : Char → Bool) (kws : List (List Char)) (s : String) : Bool :=
  kwSearchFrom isB kws true s.toList

/-- `_should_skip_by_url_pattern` (lines 349-366).  The patterns
`/(assets/)?icons?/` and `/(assets/)?logos?/` match iff the path
contains `/icon/`, `/icons/` (resp. `/logo/`, `/logos/`); the filename
keyword pattern uses the boundary class `[\W_]`, i.e. any
non-alphanumeric character. -/
def shouldSkipByUrlPattern (imgUrl : String) : Bool × String :=
  let path := strLower (urlparse imgUrl).path
  if subOf "/icon/" path || subOf "/icons/" path then
    (true, "skipped_ui_asset_icon_path")
  else if subOf "/logo/" path || subOf "/logos/" path then
    (true, "skipped_ui_asset_logo_path")
  else if subOf "favicon" path then (true, "skipped_ui_asset_favicon")
  else if subOf "sprite" path then (true, "skipped_ui_asset_sprite")
  else if kwSearch (fun c => !c.isAlphanum)
      ["icon".toList, "logo".toList, "favicon".toList, "sprite".toList,
       "badge".toList, "appicon".toList, "app-icon".toList]
      (basename path) then
    (true, "skipped_ui_asset_keyword_filename")
  else (false, "")

/-- `_should_skip_by_thumb_url` (lines 368-379); the filename pattern
uses the boundary class `[._-]`. -/
def shouldSkipByThumbUrl (imgUrl : String) : Bool × String :=
  let path := strLower (urlparse imgUrl).path
  if kwSearch (fun c => c = '.' || c = '_' || c = '-')
      ["thumb".toList, "thumbnail".toList] (basename path) then
    (true, "skipped_thumb_filename")
  else if subOf "/thumb/" path || subOf "/thumbs/" path ||
      subOf "/thumbnail" path then
    (true, "skipped_thumb_path")
  else (false, "")

/-! ### Square-thumbnail parser lemmas -/

theorem takeWhile_append_sep {p : Char → Bool} {l : List Char} {x : Char}
    {r : List Char} (hl : ∀ c ∈ l, p c = true) (hx : p x = false) :
    (l ++ x :: r).takeWhile p = l ∧ (l ++ x :: r).dropWhile p = x :: r := by
  induction l with
  | nil => simp [List.takeWhile_cons, List.dropWhile_cons, hx]
  | cons a l ih =>
    have ha : p a = true := hl a (by simp)
    have ih2 := ih (fun c hc => hl c (by simp [hc]))
    simp [List.takeWhile_cons, List.dropWhile_cons, ha, ih2.1, ih2.2]

theorem toList_mk (l : List Char) : (String.mk l).toList = l := rfl

/-- On a filename of the exact shape `stem-d1xd2.ext` with 2-4 digit
groups and a recognised extension, the parser returns both values. -/
theorem parseSquareDims_shape (stem d1 d2 ext : List Char)
    (hext : ext = "png".toList ∨ ext = "jpg".toList ∨
      ext = "jpeg".toList ∨ ext = "webp".toList)
    (hd1 : ∀ c ∈ d1, c.isDigit = true) (hd1len : 2 ≤ d1.length ∧ d1.length ≤ 4)
    (hd2 : ∀ c ∈ d2, c.isDigit = true) (hd2len : 2 ≤ d2.length ∧ d2.length ≤ 4) :
    parseSquareDims (stem ++ '-' :: d1 ++ 'x' :: d2 ++ '.' :: ext) =
      some (digitsToNat d1, digitsToNat d2) := by
  have hd2r : ∀ c ∈ d2.reverse, Char.isDigit c = true := by
    intro c hc; exact hd2 c (List.mem_reverse.mp hc)
  have hd1r : ∀ c ∈ d1.reverse, Char.isDigit c = true := by
    intro c hc; exact hd1 c (List.mem_reverse.mp hc)
  have hx : Char.isDigit 'x' = false := by decide
  have hdash : Char.isDigit '-' = false := by decide
  have htake2 := @takeWhile_append_sep Char.isDigit d2.reverse 'x'
    (d1.reverse ++ '-' :: stem.reverse) hd2r hx
  have htake1 := @takeWhile_append_sep Char.isDigit d1.reverse '-'
    stem.reverse hd1r hdash
  have hrev : (stem ++ '-' :: d1 ++ 'x' :: d2 ++ '.' :: ext).reverse =
      ext.reverse ++ '.' :: (d2.reverse ++ 'x' :: (d1.reverse ++ '-' :: stem.reverse)) := by
    simp [List.reverse_append, List.append_assoc]
  rcases hext with h | h | h | h <;> subst h <;>
    simp only [parseSquareDims, hrev] <;>
    simp only [show ("png".toList : List Char).reverse = ['g', 'n', 'p'] from rfl,
      show ("jpg".toList : List Char).reverse = ['g', 'p', 'j'] from rfl,
      show ("jpeg".toList : List Char).reverse = ['g', 'e', 'p', 'j'] from rfl,
      show ("webp".toList : List Char).reverse = ['p', 'b', 'e', 'w'] from rfl,
      List.cons_append, List.nil_append, stripRevExt] <;>
    rw [htake2.1, htake2.2] <;>
    rw [if_pos (by simpa using hd2len)] <;>
    simp only [] <;>
    rw [htake1.1, htake1.2] <;>
    rw [if_pos (by simpa using hd1len)] <;>
    simp [List.reverse_reverse]

/-- The square-thumbnail filter fires on any URL whose lowercased path
basename has the shape `stem-d1xd2.ext` with 2-4 digit groups of equal
value at most 512. -/
theorem squareFilter_fires (url : String) (stem d1 d2 ext : List Char)
    (hshape : (basename (strLower (urlparse url).path)).toList =
      stem ++ '-' :: d1 ++ 'x' :: d2 ++ '.' :: ext)
    (hext : ext = "png".toList ∨ ext = "jpg".toList ∨
      ext = "jpeg".toList ∨ ext = "webp".toList)
    (hd1 : ∀ c ∈ d1, c.isDigit = true) (hd1len : 2 ≤ d1.length ∧ d1.length ≤ 4)
    (hd2 : ∀ c ∈ d2, c.isDigit = true) (hd2len : 2 ≤ d2.length ∧ d2.length ≤ 4)
    (heq : digitsToNat d1 = digitsToNat d2) (hle : digitsToNat d1 ≤ 512) :
    shouldSkipSquareThumbnailFilename url =
      (true, "skipped_square_thumbnail_filename") := by
  simp only [shouldSkipSquareThumbnailFilename, hshape,
    parseSquareDims_shape stem d1 d2 ext hext hd1 hd1len hd2 hd2len]
  rw [if_pos ⟨heq, hle⟩]

/-- The square-thumbnail filter does not fire when the encoded
dimensions are unequal or exceed 512. -/
theorem squareFilter_rejects (url : String) (stem d1 d2 ext : List Char)
    (hshape : (basename (strLower (urlparse url).path)).toList =
      stem ++ '-' :: d1 ++ 'x' :: d2 ++ '.' :: ext)
    (hext : ext = "png".toList ∨ ext = "jpg".toList ∨
      ext = "jpeg".toList ∨ ext = "webp".toList)
    (hd1 : ∀ c ∈ d1, c.isDigit = true) (hd1len : 2 ≤ d1.length ∧ d1.length ≤ 4)
    (hd2 : ∀ c ∈ d2, c.isDigit = true) (hd2len : 2 ≤ d2.length ∧ d2.length ≤ 4)
    (hne : digitsToNat d1 ≠ digitsToNat d2 ∨ 512 < digitsToNat d1) :
    shouldSkipSquareThumbnailFilename url = (false, "") := by
  simp only [shouldSkipSquareThumbnailFilename, hshape,
    parseSquareDims_shape stem d1 d2 ext hext hd1 hd1len hd2 hd2len]
  rw [if_neg (by rcases hne with h | h <;> intro hc <;> [exact h hc.1; omega])]

/-- The spec wording of the square-thumbnail condition: the filename
ends in `-WxH.ext` for numbers `W = H ≤ 512` and a recognised image
extension. -/
def specSquareThumbFilename (filename : String) : Prop :=
  ∃ (stem : String) (w h : Nat) (ext : String),
    (ext = "png" ∨ ext = "jpg" ∨ ext = "jpeg" ∨ ext = "webp") ∧
    filename = stem ++ "-" ++ toString w ++ "x" ++ toString h ++ "." ++ ext ∧
    w = h ∧ w ≤ 512

/-! ## Image download pipeline (ImageDownloader.download_image, lines 381-505)

The network is an environment `env : Nat → Attempt` giving the outcome
of each numbered attempt; the filesystem is the `disk` field (filename,
size).  Fetches, sleeps and CSV rows are recorded as events.  The
optional compression step (`--compress`) is modelled disabled, and
`sanitize_filename`, the MD5 fingerprint and the robots gate are
environment parameters of the model. -/

/-- Size threshold `MIN_BYTES = 10 * 1024` of `download_image`. -/
def MIN_BYTES : Nat := 10 * 1024

/-- Outcome of streaming a response body to disk on one attempt:
either an exception interrupts the stream after some bytes were
written, or the file completes with a size, an
`imghdr`/`PIL`-verification verdict and an optional perceptual hash. -/
inductive WriteRes where
  | interrupted (bytesWritten : Nat)
  | complete (size : Nat) (valid : Bool) (phash : Option String)
deriving Repr, DecidableEq

/-- Behaviour of one numbered download attempt: the fetch raises, or it
returns a response with a content type, an optional declared digit
content length, and a body write outcome. -/
inductive Attempt where
  | raiseExc
  | resp (contentType : String) (contentLength : Option Nat) (write : WriteRes)
deriving Repr, DecidableEq

/-- A row of `csv_log`: `[page_url, img_url, local_path, status]`. -/
structure CsvRow where
  page : String
  img : String
  localPath : String
  status : String
deriving Repr, DecidableEq

structure DIState where
  downloadedHashes : List String
  perceptualHashes : List String
  csvLog : List CsvRow
  disk : List (String × Nat)
  fetches : List String
  sleeps : List Nat
deriving Repr, DecidableEq

/-- Environment parameters of the download model: perceptual-hash
toggle, the MD5 digest function, the robots gate `can_fetch` and
`sanitize_filename`. -/
structure DIConfig where
  perceptualHash : Bool
  md5 : String → String
  canFetch : String → Bool
  sanitize : String → String

def addRow (s : DIState) (r : CsvRow) : DIState :=
  { s with csvLog := s.csvLog ++ [r] }

def addFetch (s : DIState) (u : String) : DIState :=
  { s with fetches := s.fetches ++ [u] }

def addSleep (s : DIState) (n : Nat) : DIState :=
  { s with sleeps := s.sleeps ++ [n] }

/-- `os.remove(filepath)`. -/
def rmFile (s : DIState) (name : String) : DIState :=
  { s with disk := s.disk.filter (fun f => f.1 != name) }

/-- `os.path.splitext`: split at the last dot (the special treatment
of leading dots is immaterial here: the collision counter only needs a
deterministic renaming). -/
def splitExt (name : String) : String × String :=
  let revName := name.toList.reverse
  let afterDot := revName.takeWhile (fun c => c != '.')
  match revName.dropWhile (fun c => c != '.') with
  | [] => (name, "")
  | _ :: stemRev => (String.mk stemRev.reverse, String.mk ('.' :: afterDot.reverse))

/-- `f"{name}_{counter}{ext}"`. -/
def nameWith (base : String) (k : Nat) : String :=
  (splitExt base).1 ++ "_" ++ toString k ++ (splitExt base).2

/-- The collision loop `while filepath.exists()` with counter `k`; the
fuel `names.length + 1` suffices since each iteration needs a distinct
colliding name. -/
def freshFrom (names : List String) (base : String) : Nat → Nat → String
  | k, 0 => nameWith base k
  | k, fuel + 1 =>
    if names.contains (nameWith base k) then freshFrom names base (k + 1) fuel
    else nameWith base k

def freshName (names : List String) (base : String) : String :=
  if names.contains base then freshFrom names base 1 (names.length + 1)
  else base

/-- The retry loop of `download_image` (lines 423-503): `i` is the
current attempt index, `r` the number of attempts remaining.  The
failure row `error_{type(e).__name__}` is modelled with the fixed
exception type name `Exception`. -/
def attemptLoop (cfg : DIConfig) (imgUrl pageUrl hsh : String)
    (env : Nat → Attempt) : Nat → Nat → DIState → Option String × DIState
  | _, 0, s => (none, s)
  | i, r + 1, s =>
    match env i with
    | .raiseExc =>
      if r = 0 then
        (none, addRow s ⟨pageUrl, imgUrl, "", "error_Exception"⟩)
      else
        attemptLoop cfg imgUrl pageUrl hsh env (i + 1) r (addSleep s (2 ^ i))
    | .resp contentType contentLength w =>
      let s1 := addFetch s imgUrl
      if contentType = "image/svg+xml" then
        (none, addRow s1 ⟨pageUrl, imgUrl, "", "skipped_svg_content_type"⟩)
      else if (match contentLength with
               | some cl => decide (cl < MIN_BYTES)
               | none => false) = true then
        (none, addRow s1 ⟨pageUrl, imgUrl, "", "skipped_small_content_length"⟩)
      else
        let fname := freshName (s1.disk.map Prod.fst) (cfg.sanitize imgUrl)
        match w with
        | .interrupted b =>
          let s2 := { s1 with disk := s1.disk ++ [(fname, b)] }
          if r = 0 then
            (none, addRow s2 ⟨pageUrl, imgUrl, "", "error_Exception"⟩)
          else
            attemptLoop cfg imgUrl pageUrl hsh env (i + 1) r (addSleep s2 (2 ^ i))
        | .complete size valid ph =>
          let s2 := { s1 with disk := s1.disk ++ [(fname, size)] }
          if size < MIN_BYTES then
            (none, addRow (rmFile s2 fname) ⟨pageUrl, imgUrl, "", "skipped_small_actual"⟩)
          else if valid = false then
            (none, addRow (rmFile s2 fname) ⟨pageUrl, imgUrl, "", "invalid_image"⟩)
          else
            match (if cfg.perceptualHash then ph else none) with
            | some p =>
              if s2.perceptualHashes.contains p then
                (none, addRow (rmFile s2 fname) ⟨pageUrl, imgUrl, "", "perceptual_duplicate"⟩)
              else
                (some fname,
                 { s2 with
                    perceptualHashes := s2.perceptualHashes ++ [p],
                    downloadedHashes := s2.downloadedHashes ++ [hsh],
                    csvLog := s2.csvLog ++ [⟨pageUrl, imgUrl, fname, "success"⟩] })
            | none =>
              (some fname,
               { s2 with
                  downloadedHashes := s2.downloadedHashes ++ [hsh],
                  csvLog := s2.csvLog ++ [⟨pageUrl, imgUrl, fname, "success"⟩] })

/-- `ImageDownloader.download_image`: early filters, URL-fingerprint
dedup, robots gate, then the retry loop. -/
def downloadImage (cfg : DIConfig) (imgUrl pageUrl : String) (retries : Nat)
    (env : Nat → Attempt) (s : DIState) : Option String × DIState :=
  let f1 := shouldSkipByExtension imgUrl
  if f1.1 then (none, addRow s ⟨pageUrl, imgUrl, "", f1.2⟩)
  else
    let f2 := shouldSkipSquareThumbnailFilename imgUrl
    if f2.1 then (none, addRow s ⟨pageUrl, imgUrl, "", f2.2⟩)
    else
      let f3 := shouldSkipByUrlPattern imgUrl
      if f3.1 then (none, addRow s ⟨pageUrl, imgUrl, "", f3.2⟩)
      else
        let f4 := shouldSkipByThumbUrl imgUrl
        if f4.1 then (none, addRow s ⟨pageUrl, imgUrl, "", f4.2⟩)
        else
          let hsh := cfg.md5 (normalizeUrl imgUrl)
          if s.downloadedHashes.contains hsh then (none, s)
          else if cfg.canFetch imgUrl = false then
            (none, addRow s ⟨pageUrl, imgUrl, "", "robots_blocked"⟩)
          else attemptLoop cfg imgUrl pageUrl hsh env 0 retries s

/-- The `checkpoint.json` contents (grab_images.py lines 147-158). -/
structure Checkpoint where
  visitedUrls : List String
  downloadedHashes : List String
  perceptualHashes : List String

/-- `load_checkpoint` (lines 127-145), restricted to the dedup sets; the
visited-URL seeding feeds the crawl state of `ImageDownloader.crawl`. -/
def loadCheckpoint (perceptualEnabled : Bool) (cp : Checkpoint) (s : DIState) : DIState :=
  { s with
      downloadedHashes := s.downloadedHashes ++ cp.downloadedHashes,
      perceptualHashes :=
        if perceptualEnabled then s.perceptualHashes ++ cp.perceptualHashes
        else s.perceptualHashes }

def initDIState : DIState :=
  { downloadedHashes := [], perceptualHashes := [], csvLog := []
    disk := [], fetches := [], sleeps := [] }

/-- Sequential processing of a list of media candidates
`(imgUrl, pageUrl, attempt behaviour)` by `download_image`, as a single
worker would do it. -/
def processAll (cfg : DIConfig) (retries : Nat)
    (cands : List (String × String × (Nat → Attempt))) (s : DIState) : DIState :=
  cands.foldl (fun st c => (downloadImage cfg c.1 c.2.1 retries c.2.2 st).2) s

/-! ### Download pipeline lemmas -/

/-- Fingerprints of the URLs recorded as successes in the audit log. -/
def successFps (m : String → String) (rows : List CsvRow) : List String :=
  rows.filterMap
    (fun r => if r.status = "success" then some (m (normalizeUrl r.img)) else none)

theorem successFps_append (m : String → String) (a b : List CsvRow) :
    successFps m (a ++ b) = successFps m a ++ successFps m b := by
  simp [successFps]

/-- The retry loop either leaves the fingerprint set and the success log
unchanged, or (exactly on success) appends the candidate fingerprint to
both. -/
theorem attemptLoop_hash_spec (cfg : DIConfig) (imgUrl pageUrl hsh : String)
    (env : Nat → Attempt) (r : Nat) :
    ∀ (i : Nat) (s : DIState),
    ((attemptLoop cfg imgUrl pageUrl hsh env i r s).2.downloadedHashes = s.downloadedHashes ∧
      successFps cfg.md5 (attemptLoop cfg imgUrl pageUrl hsh env i r s).2.csvLog =
        successFps cfg.md5 s.csvLog) ∨
    ((attemptLoop cfg imgUrl pageUrl hsh env i r s).2.downloadedHashes =
        s.downloadedHashes ++ [hsh] ∧
      successFps cfg.md5 (attemptLoop cfg imgUrl pageUrl hsh env i r s).2.csvLog =
        successFps cfg.md5 s.csvLog ++ [cfg.md5 (normalizeUrl imgUrl)]) := by
  induction r with
  | zero => intro i s; left; exact ⟨rfl, rfl⟩
  | succ r ih =>
    intro i s
    simp only [attemptLoop]
    cases henv : env i with
    | raiseExc =>
      dsimp only
      split_ifs with hr
      · left
        simp [addRow, successFps_append, successFps]
      · exact ih (i + 1) (addSleep s (2 ^ i))
    | resp ct cl w =>
      dsimp only
      cases w with
      | interrupted b =>
        dsimp only
        split_ifs with h1 h2 hr
        · left; simp [addRow, addFetch, successFps_append, successFps]
        · left; simp [addRow, addFetch, successFps_append, successFps]
        · left; simp [addRow, addFetch, successFps_append, successFps]
        · exact ih (i + 1) _
      | complete size valid ph =>
        dsimp only
        split_ifs with h1 h2 hsz hval hper
        · left; simp [addRow, addFetch, successFps_append, successFps]
        · left; simp [addRow, addFetch, successFps_append, successFps]
        · left; simp [addRow, addFetch, rmFile, successFps_append, successFps]
        · left; simp [addRow, addFetch, rmFile, successFps_append, successFps]
        · cases ph with
          | none =>
            right
            constructor <;> simp [addFetch, successFps_append, successFps]
          | some p =>
            dsimp only
            split_ifs with hpd
            · left; simp [addRow, addFetch, rmFile, successFps_append, successFps]
            · right
              constructor <;> simp [addFetch, successFps_append, successFps]
        · right
          constructor <;> simp [addFetch, successFps_append, successFps]

theorem shouldSkipByExtension_ne_success (u : String) :
    (shouldSkipByExtension u).2 ≠ "success" := by
  simp only [shouldSkipByExtension]
  split_ifs <;> decide

theorem shouldSkipSquareThumbnailFilename_ne_success (u : String) :
    (shouldSkipSquareThumbnailFilename u).2 ≠ "success" := by
  simp only [shouldSkipSquareThumbnailFilename]
  rcases parseSquareDims (basename (strLower (urlparse u).path)).toList with _ | ⟨w, h⟩
  · decide
  · dsimp only
    split_ifs <;> decide

theorem shouldSkipByUrlPattern_ne_success (u : String) :
    (shouldSkipByUrlPattern u).2 ≠ "success" := by
  simp only [shouldSkipByUrlPattern]
  split_ifs <;> decide

theorem shouldSkipByThumbUrl_ne_success (u : String) :
    (shouldSkipByThumbUrl u).2 ≠ "success" := by
  simp only [shouldSkipByThumbUrl]
  split_ifs <;> decide

theorem successFps_snoc_nonsuccess (m : String → String) (rows : List CsvRow)
    (r : CsvRow) (h : r.status ≠ "success") :
    successFps m (rows ++ [r]) = successFps m rows := by
  simp [successFps_append, successFps, h]

/-- `download_image` either leaves the fingerprint set and success log
unchanged, or the fingerprint was fresh and is appended to both. -/
theorem downloadImage_hash_spec (cfg : DIConfig) (imgUrl pageUrl : String)
    (retries : Nat) (env : Nat → Attempt) (s : DIState) :
    ((downloadImage cfg imgUrl pageUrl retries env s).2.downloadedHashes = s.downloadedHashes ∧
      successFps cfg.md5 (downloadImage cfg imgUrl pageUrl retries env s).2.csvLog =
        successFps cfg.md5 s.csvLog) ∨
    (cfg.md5 (normalizeUrl imgUrl) ∉ s.downloadedHashes ∧
      (downloadImage cfg imgUrl pageUrl retries env s).2.downloadedHashes =
        s.downloadedHashes ++ [cfg.md5 (normalizeUrl imgUrl)] ∧
      successFps cfg.md5 (downloadImage cfg imgUrl pageUrl retries env s).2.csvLog =
        successFps cfg.md5 s.csvLog ++ [cfg.md5 (normalizeUrl imgUrl)]) := by
  simp only [downloadImage]
  split_ifs with f1 f2 f3 f4 hh hr
  · left
    exact ⟨rfl, by
      simpa [addRow] using successFps_snoc_nonsuccess cfg.md5 s.csvLog _
        (shouldSkipByExtension_ne_success imgUrl)⟩
  · left
    exact ⟨rfl, by
      simpa [addRow] using successFps_snoc_nonsuccess cfg.md5 s.csvLog _
        (shouldSkipSquareThumbnailFilename_ne_success imgUrl)⟩
  · left
    exact ⟨rfl, by
      simpa [addRow] using successFps_snoc_nonsuccess cfg.md5 s.csvLog _
        (shouldSkipByUrlPattern_ne_success imgUrl)⟩
  · left
    exact ⟨rfl, by
      simpa [addRow] using successFps_snoc_nonsuccess cfg.md5 s.csvLog _
        (shouldSkipByThumbUrl_ne_success imgUrl)⟩
  · left
    exact ⟨rfl, rfl⟩
  · left
    exact ⟨rfl, by
      simpa [addRow] using successFps_snoc_nonsuccess cfg.md5 s.csvLog _
        (by decide : ("robots_blocked" : String) ≠ "success")⟩
  · have hnot : cfg.md5 (normalizeUrl imgUrl) ∉ s.downloadedHashes := by
      intro hmem
      exact hh (by simpa [List.contains, List.elem_eq_mem] using hmem)
    rcases attemptLoop_hash_spec cfg imgUrl pageUrl (cfg.md5 (normalizeUrl imgUrl))
        env retries 0 s with ⟨h1, h2⟩ | ⟨h1, h2⟩
    · exact Or.inl ⟨h1, h2⟩
    · exact Or.inr ⟨hnot, h1, h2⟩

/-- The dedup invariant of a run: the success log contains pairwise
distinct fingerprints, all of which are recorded in `downloaded_hashes`. -/
def C1Inv (m : String → String) (s : DIState) : Prop :=
  (successFps m s.csvLog).Nodup ∧
    ∀ fp ∈ successFps m s.csvLog, fp ∈ s.downloadedHashes

theorem downloadImage_C1Inv (cfg : DIConfig) (imgUrl pageUrl : String)
    (retries : Nat) (env : Nat → Attempt) (s : DIState)
    (hinv : C1Inv cfg.md5 s) :
    C1Inv cfg.md5 (downloadImage cfg imgUrl pageUrl retries env s).2 := by
  rcases downloadImage_hash_spec cfg imgUrl pageUrl retries env s with
    ⟨h1, h2⟩ | ⟨hfresh, h1, h2⟩
  · refine ⟨by rw [h2]; exact hinv.1, ?_⟩
    intro fp hfp
    rw [h2] at hfp
    rw [h1]
    exact hinv.2 fp hfp
  · constructor
    · rw [h2, List.nodup_append]
      refine ⟨hinv.1, List.nodup_singleton _, ?_⟩
      intro x hx hxs
      simp only [List.mem_singleton] at hxs
      subst hxs
      exact hfresh (hinv.2 _ hx)
    · intro fp hfp
      rw [h2] at hfp
      rw [h1]
      rcases List.mem_append.mp hfp with h | h
      · exact List.mem_append.mpr (Or.inl (hinv.2 fp h))
      · exact List.mem_append.mpr (Or.inr h)

theorem processAll_C1Inv (cfg : DIConfig) (retries : Nat)
    (cands : List (String × String × (Nat → Attempt))) (s : DIState)
    (hinv : C1Inv cfg.md5 s) :
    C1Inv cfg.md5 (processAll cfg retries cands s) := by
  induction cands generalizing s with
  | nil => exact hinv
  | cons c rest ih =>
    simp only [processAll, List.foldl_cons]
    exact ih _ (downloadImage_C1Inv cfg c.1 c.2.1 retries c.2.2 s hinv)

/-- With no exception interrupting a body write, a run of the retry
loop that does not succeed leaves no new file on disk. -/
theorem attemptLoop_disk_subset (cfg : DIConfig) (imgUrl pageUrl hsh : String)
    (env : Nat → Attempt)
    (henv : ∀ j ct cl b, env j ≠ Attempt.resp ct cl (WriteRes.interrupted b))
    (r : Nat) :
    ∀ (i : Nat) (s : DIState),
      (attemptLoop cfg imgUrl pageUrl hsh env i r s).1 = none →
        (attemptLoop cfg imgUrl pageUrl hsh env i r s).2.disk ⊆ s.disk := by
  induction r with
  | zero => intro i s _; exact List.Subset.refl _
  | succ r ih =>
    intro i s
    simp only [attemptLoop]
    cases henv2 : env i with
    | raiseExc =>
      dsimp only
      split_ifs with hr
      · intro _
        simp [addRow]
      · intro hres
        have := ih (i + 1) (addSleep s (2 ^ i)) hres
        simpa [addSleep] using this
    | resp ct cl w =>
      cases w with
      | interrupted b => exact absurd henv2 (henv i ct cl b)
      | complete size valid ph =>
        dsimp only
        split_ifs with h1 h2 hsz hval hper
        · intro _; simp [addRow, addFetch]
        · intro _; simp [addRow, addFetch]
        · intro _
          intro a ha
          simp only [addRow, rmFile, addFetch, List.mem_filter, List.mem_append,
            List.mem_singleton] at ha
          rcases ha with ⟨h | h, hne⟩
          · exact h
          · subst h
            simp at hne
        · intro _
          intro a ha
          simp only [addRow, rmFile, addFetch, List.mem_filter, List.mem_append,
            List.mem_singleton] at ha
          rcases ha with ⟨h | h, hne⟩
          · exact h
          · subst h
            simp at hne
        · cases ph with
          | none =>
            intro hres
            simp at hres
          | some p =>
            dsimp only
            split_ifs with hpd
            · intro _
              intro a ha
              simp only [addRow, rmFile, addFetch, List.mem_filter, List.mem_append,
                List.mem_singleton] at ha
              rcases ha with ⟨h | h, hne⟩
              · exact h
              · subst h
                simp at hne
            · intro hres
              simp at hres
        · intro hres
          simp at hres

/-- Each run of the retry loop performs at most `r` fetches. -/
theorem attemptLoop_fetch_bound (cfg : DIConfig) (imgUrl pageUrl hsh : String)
    (env : Nat → Attempt) (r : Nat) :
    ∀ (i : Nat) (s : DIState),
      (attemptLoop cfg imgUrl pageUrl hsh env i r s).2.fetches.length ≤
        s.fetches.length + r := by
  induction r with
  | zero => intro i s; simp [attemptLoop]
  | succ r ih =>
    intro i s
    simp only [attemptLoop]
    cases henv2 : env i with
    | raiseExc =>
      dsimp only
      split_ifs with hr
      · simp [addRow]
      · refine le_trans (ih (i + 1) _) ?_
        simp only [addSleep]
        omega
    | resp ct cl w =>
      cases w with
      | interrupted b =>
        dsimp only
        split_ifs with h1 h2 hr <;>
          first
            | (refine le_trans (ih (i + 1) _) ?_
               simp only [addSleep, addFetch]
               simp only [List.length_append, List.length_singleton]
               omega)
            | (simp [addRow, addFetch] <;> omega)
      | complete size valid ph =>
        dsimp only
        split_ifs with h1 h2 hsz hval hper
        · simp [addRow, addFetch] <;> omega
        · simp [addRow, addFetch] <;> omega
        · simp [addRow, addFetch, rmFile] <;> omega
        · simp [addRow, addFetch, rmFile] <;> omega
        · cases ph with
          | none => simp [addFetch] <;> omega
          | some p =>
            dsimp only
            split_ifs with hpd
            · simp [addRow, addFetch, rmFile] <;> omega
            · simp [addFetch] <;> omega
        · simp [addFetch] <;> omega

/-- When every attempt raises, the retry loop sleeps `2 ^ attempt`
between attempts, records one failure row on the final attempt, and
returns no path. -/
theorem attemptLoop_all_raise (cfg : DIConfig) (imgUrl pageUrl hsh : String)
    (env : Nat → Attempt) (henv : ∀ j, env j = Attempt.raiseExc) (r : Nat) :
    ∀ (i : Nat) (s : DIState),
      attemptLoop cfg imgUrl pageUrl hsh env i (r + 1) s =
        (none,
          addRow
            { s with sleeps := s.sleeps ++ (List.range r).map (fun j => 2 ^ (i + j)) }
            ⟨pageUrl, imgUrl, "", "error_Exception"⟩) := by
  induction r with
  | zero =>
    intro i s
    simp [attemptLoop, henv i, addRow]
  | succ r ih =>
    intro i s
    conv_lhs => rw [attemptLoop]
    rw [henv i]
    dsimp only
    rw [if_neg (Nat.succ_ne_zero r)]
    rw [ih (i + 1) (addSleep s (2 ^ i))]
    simp only [addSleep, addRow]
    have hsleeps : (s.sleeps ++ [2 ^ i]) ++ (List.range r).map (fun j => 2 ^ (i + 1 + j)) =
        s.sleeps ++ (List.range (r + 1)).map (fun j => 2 ^ (i + j)) := by
      rw [List.range_succ_eq_map]
      simp only [List.map_cons, List.map_map, List.append_assoc, List.singleton_append,
        Nat.add_zero]
      congr 2
      apply List.map_congr_left
      intro j _
      simp only [Function.comp_apply]
      congr 1
      omega
    rw [hsleeps]

/-- A candidate whose fingerprint is already recorded is skipped before
any fetch: no fetch happens, the disk is untouched, and no path is
returned. -/
theorem downloadImage_skip_of_mem (cfg : DIConfig) (imgUrl pageUrl : String)
    (retries : Nat) (env : Nat → Attempt) (s : DIState)
    (hmem : cfg.md5 (normalizeUrl imgUrl) ∈ s.downloadedHashes) :
    (downloadImage cfg imgUrl pageUrl retries env s).1 = none ∧
      (downloadImage cfg imgUrl pageUrl retries env s).2.fetches = s.fetches ∧
      (downloadImage cfg imgUrl pageUrl retries env s).2.disk = s.disk := by
  have hcontains : s.downloadedHashes.contains (cfg.md5 (normalizeUrl imgUrl)) = true := by
    simpa [List.contains, List.elem_eq_mem] using hmem
  simp only [downloadImage]
  split_ifs with f1 f2 f3 f4 hh hr
  · exact ⟨rfl, rfl, rfl⟩
  · exact ⟨rfl, rfl, rfl⟩
  · exact ⟨rfl, rfl, rfl⟩
  · exact ⟨rfl, rfl, rfl⟩
  · exact ⟨rfl, rfl, rfl⟩
  all_goals exact absurd hcontains hh

/-! ## MP4 download (VideoDownloader.download_mp4, video_downloader.py lines 841-886)

The attempts write to one fixed `output_path` (truncating on rewrite);
an exception on the final attempt propagates to the outer handler,
which unlinks the file if it exists. -/

/-- `MIN_VIDEO_SIZE = 50 * 1024`. -/
def MIN_VIDEO_SIZE : Nat := 50 * 1024

/-- Behaviour of one `download_mp4` attempt: the fetch raises, an
exception interrupts the body write, or the write completes. -/
inductive MpAttempt where
  | raiseExc
  | interrupted (bytesWritten : Nat)
  | complete (size : Nat)
deriving Repr, DecidableEq

structure MpState where
  disk : List (String × Nat)
  fetches : Nat
  sleeps : List Nat
deriving Repr, DecidableEq

/-- Truncating write `open(output_path, 'wb')` at a fixed path. -/
def mpWrite (outPath : String) (b : Nat) (disk : List (String × Nat)) :
    List (String × Nat) :=
  disk.filter (fun f => f.1 != outPath) ++ [(outPath, b)]

/-- `if output_path.exists(): output_path.unlink()`. -/
def mpUnlink (outPath : String) (disk : List (String × Nat)) :
    List (String × Nat) :=
  disk.filter (fun f => f.1 != outPath)

/-- The retry loop of `download_mp4`: exceptions before the last attempt
sleep `2 ^ attempt` and retry; an exception on the last attempt reaches
the outer handler which unlinks any partial file; a completed write
below the size floor is unlinked and reported as failure. -/
def downloadMp4 (outPath : String) (env : Nat → MpAttempt) :
    Nat → Nat → MpState → Bool × MpState
  | _, 0, s => (false, s)
  | i, r + 1, s =>
    let s1 := { s with fetches := s.fetches + 1 }
    match env i with
    | .raiseExc =>
      if r = 0 then (false, { s1 with disk := mpUnlink outPath s1.disk })
      else downloadMp4 outPath env (i + 1) r { s1 with sleeps := s1.sleeps ++ [2 ^ i] }
    | .interrupted b =>
      let s2 := { s1 with disk := mpWrite outPath b s1.disk }
      if r = 0 then (false, { s2 with disk := mpUnlink outPath s2.disk })
      else downloadMp4 outPath env (i + 1) r { s2 with sleeps := s2.sleeps ++ [2 ^ i] }
    | .complete size =>
      let s2 := { s1 with disk := mpWrite outPath size s1.disk }
      if size < MIN_VIDEO_SIZE then
        (false, { s2 with disk := mpUnlink outPath s2.disk })
      else (true, s2)

theorem mem_mpUnlink (outPath : String) (disk : List (String × Nat))
    (p : String × Nat) (hp : p ∈ mpUnlink outPath disk) : p.1 ≠ outPath := by
  simp only [mpUnlink, List.mem_filter, bne_iff_ne] at hp
  exact hp.2

/-- A failed `download_mp4` leaves no file at the output path. -/
theorem downloadMp4_failure_clean (outPath : String) (env : Nat → MpAttempt) :
    ∀ (r i : Nat) (s : MpState), r ≠ 0 →
      (downloadMp4 outPath env i r s).1 = false →
      ∀ p ∈ (downloadMp4 outPath env i r s).2.disk, p.1 ≠ outPath := by
  intro r
  induction r with
  | zero => intro i s hr; exact absurd rfl hr
  | succ r ih =>
    intro i s _
    simp only [downloadMp4]
    cases henv : env i with
    | raiseExc =>
      dsimp only
      split_ifs with hr0
      · intro _ p hp
        exact mem_mpUnlink outPath _ p hp
      · intro hres p hp
        exact ih (i + 1) _ hr0 hres p hp
    | interrupted b =>
      dsimp only
      split_ifs with hr0
      · intro _ p hp
        exact mem_mpUnlink outPath _ p hp
      · intro hres p hp
        exact ih (i + 1) _ hr0 hres p hp
    | complete size =>
      dsimp only
      split_ifs with hsz
      · intro _ p hp
        exact mem_mpUnlink outPath _ p hp
      · intro hres
        simp at hres

/-- `download_mp4` performs at most `r` fetch attempts. -/
theorem downloadMp4_fetch_bound (outPath : String) (env : Nat → MpAttempt) :
    ∀ (r i : Nat) (s : MpState),
      (downloadMp4 outPath env i r s).2.fetches ≤ s.fetches + r := by
  intro r
  induction r with
  | zero => intro i s; simp [downloadMp4]
  | succ r ih =>
    intro i s
    simp only [downloadMp4]
    cases henv : env i with
    | raiseExc =>
      dsimp only
      split_ifs with hr0
      · simp
      · refine le_trans (ih (i + 1) _) ?_
        simp
        omega
    | interrupted b =>
      dsimp only
      split_ifs with hr0
      · simp
      · refine le_trans (ih (i + 1) _) ?_
        simp
        omega
    | complete size =>
      dsimp only
      split_ifs with hsz <;> simp

/-- When every attempt raises, `download_mp4` reports failure. -/
theorem downloadMp4_all_raise (outPath : String) (env : Nat → MpAttempt)
    (henv : ∀ j, env j = MpAttempt.raiseExc) :
    ∀ (r i : Nat) (s : MpState), (downloadMp4 outPath env i r s).1 = false := by
  intro r
  induction r with
  | zero => intro i s; rfl
  | succ r ih =>
    intro i s
    simp only [downloadMp4, henv i]
    split_ifs with hr0
    · rfl
    · exact ih (i + 1) _

/-! ### Claim theorems about the download pipelines -/

/-- C1 (amended): when candidates are processed sequentially,
`download_image` persists at most one successful download per
normalized-URL fingerprint: the fingerprint check before fetching and
the recording on success make a second success with the same
fingerprint impossible.  (As stated, the claim also covers concurrent
workers; the interleaved counterexample shows that part fails.) -/
theorem C1_sequential_dedup (cfg : DIConfig) (retries : Nat)
    (cands : List (String × String × (Nat → Attempt))) (fp : String) :
    ((successFps cfg.md5 (processAll cfg retries cands initDIState).csvLog).count fp) ≤ 1 := by
  have hinv := processAll_C1Inv cfg retries cands initDIState
    ⟨by simp [initDIState, successFps], by simp [initDIState, successFps]⟩
  exact List.nodup_iff_count_le_one.mp hinv.1 fp

/-- C3 counterexample: an exception that interrupts the body write of
`download_image` leaves the partially written file on disk even though
the candidate ends in a non-success terminal outcome (a failure row,
result `None`). -/
theorem C3_counterexample :
    (downloadImage
        { perceptualHash := false, md5 := fun s => s,
          canFetch := fun _ => true, sanitize := fun _ => "pic.jpg" }
        "https://example.com/pic.jpg" "https://example.com/" 3
        (fun i => if i = 0 then Attempt.resp "image/jpeg" none (WriteRes.interrupted 5)
                  else Attempt.raiseExc)
        initDIState).1 = none ∧
      (downloadImage
        { perceptualHash := false, md5 := fun s => s,
          canFetch := fun _ => true, sanitize := fun _ => "pic.jpg" }
        "https://example.com/pic.jpg" "https://example.com/" 3
        (fun i => if i = 0 then Attempt.resp "image/jpeg" none (WriteRes.interrupted 5)
                  else Attempt.raiseExc)
        initDIState).2.csvLog =
        [⟨"https://example.com/", "https://example.com/pic.jpg", "", "error_Exception"⟩] ∧
      (downloadImage
        { perceptualHash := false, md5 := fun s => s,
          canFetch := fun _ => true, sanitize := fun _ => "pic.jpg" }
        "https://example.com/pic.jpg" "https://example.com/" 3
        (fun i => if i = 0 then Attempt.resp "image/jpeg" none (WriteRes.interrupted 5)
                  else Attempt.raiseExc)
        initDIState).2.disk = [("pic.jpg", 5)] := by
  refine ⟨?_, ?_, ?_⟩ <;> decide

/-- C3 (amended): every post-download check of `download_image`
(size floor, media verification, perceptual duplicate) deletes the
just-written file — formally, when no exception interrupts a body
write, a non-success outcome leaves no new file on disk — and a failed
`download_mp4` never leaves a file at its output path.  (The
counterexample shows the stronger claim fails for `download_image` when
an exception interrupts the body write: the partial file survives and a
retry writes under a new name.) -/
theorem C3_failure_cleanup :
    (∀ (outPath : String) (env : Nat → MpAttempt) (r i : Nat) (s : MpState),
        r ≠ 0 → (downloadMp4 outPath env i r s).1 = false →
        ∀ p ∈ (downloadMp4 outPath env i r s).2.disk, p.1 ≠ outPath) ∧
      (∀ (cfg : DIConfig) (imgUrl pageUrl : String) (retries : Nat)
          (env : Nat → Attempt) (s : DIState),
        (∀ j ct cl b, env j ≠ Attempt.resp ct cl (WriteRes.interrupted b)) →
        (downloadImage cfg imgUrl pageUrl retries env s).1 = none →
        (downloadImage cfg imgUrl pageUrl retries env s).2.disk ⊆ s.disk) := by
  constructor
  · exact fun outPath env r i s hr => downloadMp4_failure_clean outPath env r i s hr
  · intro cfg imgUrl pageUrl retries env s henv hres
    simp only [downloadImage] at hres ⊢
    split_ifs at hres ⊢ with f1 f2 f3 f4 hh hr
    · simp [addRow]
    · simp [addRow]
    · simp [addRow]
    · simp [addRow]
    · exact List.Subset.refl _
    · simp [addRow]
    · exact attemptLoop_disk_subset cfg imgUrl pageUrl _ env henv retries 0 s hres

theorem C3_failure_cleanup_witness :
    (("v.mp4", 100) ∉
        (downloadMp4 "v.mp4"
          (fun i => if i = 0 then MpAttempt.interrupted 100 else MpAttempt.raiseExc)
          0 3 ⟨[], 0, []⟩).2.disk) ∧
      (downloadImage
          { perceptualHash := false, md5 := fun s => s,
            canFetch := fun _ => true, sanitize := fun _ => "pic.jpg" }
          "https://example.com/pic.jpg" "https://example.com/" 3
          (fun _ => Attempt.raiseExc) initDIState).2.disk = [] := by
  constructor
  · intro hmem
    exact C3_failure_cleanup.1 "v.mp4"
      (fun i => if i = 0 then MpAttempt.interrupted 100 else MpAttempt.raiseExc)
      3 0 ⟨[], 0, []⟩ (by decide) (by decide) ("v.mp4", 100) hmem rfl
  · have hsub := C3_failure_cleanup.2
      { perceptualHash := false, md5 := fun s => s,
        canFetch := fun _ => true, sanitize := fun _ => "pic.jpg" }
      "https://example.com/pic.jpg" "https://example.com/" 3
      (fun _ => Attempt.raiseExc) initDIState
      (fun j ct cl b h => Attempt.noConfusion h) (by decide)
    exact List.eq_nil_iff_forall_not_mem.mpr
      (fun x hx => absurd (hsub hx) (by simp [initDIState]))

/-- C6: `load_checkpoint` seeds `downloaded_hashes` from the checkpoint
file, and `download_image` skips — with no fetch and no disk write —
any candidate whose normalized-URL fingerprint is already recorded, so
a second run over the same checkpoint downloads none of the recorded
URLs. -/
theorem C6_checkpoint_idempotence :
    (∀ (pe : Bool) (cp : Checkpoint) (s : DIState),
        ∀ x ∈ cp.downloadedHashes, x ∈ (loadCheckpoint pe cp s).downloadedHashes) ∧
      (∀ (cfg : DIConfig) (imgUrl pageUrl : String) (retries : Nat)
          (env : Nat → Attempt) (pe : Bool) (cp : Checkpoint),
        cfg.md5 (normalizeUrl imgUrl) ∈ cp.downloadedHashes →
        (downloadImage cfg imgUrl pageUrl retries env (loadCheckpoint pe cp initDIState)).1 = none ∧
        (downloadImage cfg imgUrl pageUrl retries env (loadCheckpoint pe cp initDIState)).2.fetches = [] ∧
        (downloadImage cfg imgUrl pageUrl retries env (loadCheckpoint pe cp initDIState)).2.disk = []) := by
  constructor
  · intro pe cp s x hx
    simp only [loadCheckpoint]
    exact List.mem_append.mpr (Or.inr hx)
  · intro cfg imgUrl pageUrl retries env pe cp hmem
    have hmem2 : cfg.md5 (normalizeUrl imgUrl) ∈
        (loadCheckpoint pe cp initDIState).downloadedHashes := by
      simp only [loadCheckpoint, initDIState]
      simpa using hmem
    have h := downloadImage_skip_of_mem cfg imgUrl pageUrl retries env
      (loadCheckpoint pe cp initDIState) hmem2
    refine ⟨h.1, ?_, ?_⟩
    · rw [h.2.1]; rfl
    · rw [h.2.2]; rfl

theorem C6_checkpoint_idempotence_witness :
    ("https://example.com/pic.jpg" ∈
        (loadCheckpoint false ⟨[], ["https://example.com/pic.jpg"], []⟩
          initDIState).downloadedHashes) ∧
      (downloadImage
          { perceptualHash := false, md5 := fun s => s,
            canFetch := fun _ => true, sanitize := fun _ => "pic.jpg" }
          "https://example.com/pic.jpg" "https://example.com/" 3
          (fun _ => Attempt.resp "image/jpeg" none (WriteRes.complete 20000 true none))
          (loadCheckpoint false ⟨[], ["https://example.com/pic.jpg"], []⟩ initDIState)).1 = none :=
  ⟨C6_checkpoint_idempotence.1 false ⟨[], ["https://example.com/pic.jpg"], []⟩
      initDIState "https://example.com/pic.jpg" (by simp),
   (C6_checkpoint_idempotence.2
      { perceptualHash := false, md5 := fun s => s,
        canFetch := fun _ => true, sanitize := fun _ => "pic.jpg" }
      "https://example.com/pic.jpg" "https://example.com/" 3
      (fun _ => Attempt.resp "image/jpeg" none (WriteRes.complete 20000 true none))
      false ⟨[], ["https://example.com/pic.jpg"], []⟩ (by decide)).1⟩

/-- C7: each candidate is fetched at most the configured retry count
times; with every attempt raising, the retry loop sleeps `2 ^ attempt`
between attempts and ends with a single failure row and no result
(exceptions before the last attempt are swallowed, the final one is
terminal); `download_mp4` likewise fails after at most `retries`
fetches. -/
theorem C7_retry_backoff :
    (∀ (cfg : DIConfig) (imgUrl pageUrl : String) (retries : Nat)
        (env : Nat → Attempt) (s : DIState),
      (downloadImage cfg imgUrl pageUrl retries env s).2.fetches.length ≤
        s.fetches.length + retries) ∧
      (∀ (cfg : DIConfig) (imgUrl pageUrl hsh : String) (env : Nat → Attempt),
        (∀ j, env j = Attempt.raiseExc) → ∀ (r i : Nat) (s : DIState),
        attemptLoop cfg imgUrl pageUrl hsh env i (r + 1) s =
          (none,
            addRow
              { s with sleeps := s.sleeps ++ (List.range r).map (fun j => 2 ^ (i + j)) }
              ⟨pageUrl, imgUrl, "", "error_Exception"⟩)) ∧
      (∀ (outPath : String) (env : Nat → MpAttempt),
        (∀ j, env j = MpAttempt.raiseExc) →
        ∀ (r i : Nat) (s : MpState), (downloadMp4 outPath env i r s).1 = false) ∧
      (∀ (outPath : String) (env : Nat → MpAttempt) (r i : Nat) (s : MpState),
        (downloadMp4 outPath env i r s).2.fetches ≤ s.fetches + r) := by
  refine ⟨?_, ?_, ?_, ?_⟩
  · intro cfg imgUrl pageUrl retries env s
    simp only [downloadImage]
    split_ifs with f1 f2 f3 f4 hh hr
    · simp [addRow]
    · simp [addRow]
    · simp [addRow]
    · simp [addRow]
    · simp
    · simp [addRow]
    · exact attemptLoop_fetch_bound cfg imgUrl pageUrl _ env retries 0 s
  · exact fun cfg imgUrl pageUrl hsh env henv r i s =>
      attemptLoop_all_raise cfg imgUrl pageUrl hsh env henv r i s
  · exact fun outPath env henv r i s => downloadMp4_all_raise outPath env henv r i s
  · exact fun outPath env r i s => downloadMp4_fetch_bound outPath env r i s

theorem C7_retry_backoff_witness :
    attemptLoop
        { perceptualHash := false, md5 := fun s => s,
          canFetch := fun _ => true, sanitize := fun _ => "pic.jpg" }
        "https://example.com/pic.jpg" "https://example.com/" "h"
        (fun _ => Attempt.raiseExc) 0 3 initDIState =
      (none,
        addRow
          { initDIState with
              sleeps := initDIState.sleeps ++ (List.range 2).map (fun j => 2 ^ (0 + j)) }
          ⟨"https://example.com/", "https://example.com/pic.jpg", "", "error_Exception"⟩) :=
  C7_retry_backoff.2.1
    { perceptualHash := false, md5 := fun s => s,
      canFetch := fun _ => true, sanitize := fun _ => "pic.jpg" }
    "https://example.com/pic.jpg" "https://example.com/" "h"
    (fun _ => Attempt.raiseExc) (fun _ => rfl) 2 0 initDIState

/-- C8 counterexample: `photo-5x5.png` has a square dimension pair with
value at most 512 in the spec sense, but the filter regex requires 2-4
digits per dimension, so the candidate is not skipped — with a
successful response it is fetched and downloaded instead of being
recorded as `skipped_square_thumbnail_filename`. -/
theorem C8_counterexample :
    specSquareThumbFilename "photo-5x5.png" ∧
      basename (strLower (urlparse "https://site.com/photo-5x5.png").path) = "photo-5x5.png" ∧
      shouldSkipSquareThumbnailFilename "https://site.com/photo-5x5.png" = (false, "") ∧
      (downloadImage
          { perceptualHash := false, md5 := fun s => s,
            canFetch := fun _ => true, sanitize := fun _ => "photo-5x5.png" }
          "https://site.com/photo-5x5.png" "https://site.com/" 3
          (fun _ => Attempt.resp "image/png" none (WriteRes.complete 20000 true none))
          initDIState).2.fetches = ["https://site.com/photo-5x5.png"] ∧
      (downloadImage
          { perceptualHash := false, md5 := fun s => s,
            canFetch := fun _ => true, sanitize := fun _ => "photo-5x5.png" }
          "https://site.com/photo-5x5.png" "https://site.com/" 3
          (fun _ => Attempt.resp "image/png" none (WriteRes.complete 20000 true none))
          initDIState).2.csvLog =
        [⟨"https://site.com/", "https://site.com/photo-5x5.png", "photo-5x5.png", "success"⟩] := by
  refine ⟨⟨"photo", 5, 5, "png", Or.inl rfl, by decide, rfl, by decide⟩, ?_, ?_, ?_, ?_⟩ <;> decide

/-- C8 (amended): an image URL whose lowercased path basename ends in
`-WxH.png/.jpg/.jpeg/.webp` with `W` and `H` written as 2-4 digit
strings of equal value at most 512 is skipped before any fetch — when
the earlier extension/thumbnail filter has not already fired, the
candidate is dropped with exactly one audit row carrying the reason
`skipped_square_thumbnail_filename` — while a dimension pair with
unequal values or a value above 512 never triggers this filter. -/
theorem C8_square_thumbnail_filter :
    (∀ (url : String) (stem d1 d2 ext : List Char),
      (basename (strLower (urlparse url).path)).toList =
          stem ++ '-' :: d1 ++ 'x' :: d2 ++ '.' :: ext →
      (ext = "png".toList ∨ ext = "jpg".toList ∨
        ext = "jpeg".toList ∨ ext = "webp".toList) →
      (∀ c ∈ d1, c.isDigit = true) → 2 ≤ d1.length ∧ d1.length ≤ 4 →
      (∀ c ∈ d2, c.isDigit = true) → 2 ≤ d2.length ∧ d2.length ≤ 4 →
      digitsToNat d1 = digitsToNat d2 → digitsToNat d1 ≤ 512 →
      shouldSkipSquareThumbnailFilename url =
        (true, "skipped_square_thumbnail_filename")) ∧
    (∀ (url : String) (stem d1 d2 ext : List Char),
      (basename (strLower (urlparse url).path)).toList =
          stem ++ '-' :: d1 ++ 'x' :: d2 ++ '.' :: ext →
      (ext = "png".toList ∨ ext = "jpg".toList ∨
        ext = "jpeg".toList ∨ ext = "webp".toList) →
      (∀ c ∈ d1, c.isDigit = true) → 2 ≤ d1.length ∧ d1.length ≤ 4 →
      (∀ c ∈ d2, c.isDigit = true) → 2 ≤ d2.length ∧ d2.length ≤ 4 →
      (digitsToNat d1 ≠ digitsToNat d2 ∨ 512 < digitsToNat d1) →
      shouldSkipSquareThumbnailFilename url = (false, "")) ∧
    (∀ (cfg : DIConfig) (imgUrl pageUrl : String) (retries : Nat)
        (env : Nat → Attempt) (s : DIState),
      shouldSkipByExtension imgUrl = (false, "") →
      shouldSkipSquareThumbnailFilename imgUrl =
        (true, "skipped_square_thumbnail_filename") →
      downloadImage cfg imgUrl pageUrl retries env s =
        (none, addRow s ⟨pageUrl, imgUrl, "", "skipped_square_thumbnail_filename"⟩)) := by
  refine ⟨?_, ?_, ?_⟩
  · intro url stem d1 d2 ext hshape hext hd1 hd1len hd2 hd2len heq hle
    exact squareFilter_fires url stem d1 d2 ext hshape hext hd1 hd1len hd2 hd2len heq hle
  · intro url stem d1 d2 ext hshape hext hd1 hd1len hd2 hd2len hne
    exact squareFilter_rejects url stem d1 d2 ext hshape hext hd1 hd1len hd2 hd2len hne
  · intro cfg imgUrl pageUrl retries env s h1 h2
    simp [downloadImage, h1, h2]

theorem C8_square_thumbnail_filter_witness :
    shouldSkipSquareThumbnailFilename "https://site.com/photo-400x400.png" =
        (true, "skipped_square_thumbnail_filename") ∧
      shouldSkipSquareThumbnailFilename "https://site.com/photo-600x600.png" = (false, "") ∧
      downloadImage
          { perceptualHash := false, md5 := fun s => s,
            canFetch := fun _ => true, sanitize := fun _ => "photo-400x400.png" }
          "https://site.com/photo-400x400.png" "https://site.com/" 3
          (fun _ => Attempt.raiseExc) initDIState =
        (none, addRow initDIState
          ⟨"https://site.com/", "https://site.com/photo-400x400.png", "",
            "skipped_square_thumbnail_filename"⟩) := by
  refine ⟨?_, ?_, ?_⟩
  · exact C8_square_thumbnail_filter.1 "https://site.com/photo-400x400.png"
      "photo".toList "400".toList "400".toList "png".toList
      (by decide) (Or.inl rfl) (by decide) (by decide) (by decide) (by decide) rfl (by decide)
  · exact C8_square_thumbnail_filter.2.1 "https://site.com/photo-600x600.png"
      "photo".toList "600".toList "600".toList "png".toList
      (by decide) (Or.inl rfl) (by decide) (by decide) (by decide) (by decide)
      (Or.inr (by decide))
  · exact C8_square_thumbnail_filter.2.2
      { perceptualHash := false, md5 := fun s => s,
        canFetch := fun _ => true, sanitize := fun _ => "photo-400x400.png" }
      "https://site.com/photo-400x400.png" "https://site.com/" 3
      (fun _ => Attempt.raiseExc) initDIState (by decide) (by decide)

/-! ## Rate limiter (ImageDownloader.rate_limit_wait, grab_images.py
lines 196-204; RateLimiter.wait, video_downloader.py lines 81-93)

Wall-clock time is rational; `time.sleep` advances the clock by exactly
the requested amount, and the fetch gated by the wait is stamped at the
time recorded in `last_request_time`. -/

structure RLState where
  clock : ℚ
  last : String → Option ℚ
  fetches : List (String × ℚ)

/-- `rate_limit_wait(domain)` followed by the request it gates: when
the domain was seen, sleep the remainder of `1/rate` since its last
request, then stamp the domain and fetch. -/
def rlWait (rate : ℚ) (domain : String) (s : RLState) : RLState :=
  match s.last domain with
  | some t =>
    let delay := 1 / rate - (s.clock - t)
    let c := if 0 < delay then s.clock + delay else s.clock
    { clock := c,
      last := fun d => if d = domain then some c else s.last d,
      fetches := s.fetches ++ [(domain, c)] }
  | none =>
    { clock := s.clock,
      last := fun d => if d = domain then some s.clock else s.last d,
      fetches := s.fetches ++ [(domain, s.clock)] }

/-- A sequential run: before each request, wall-clock time may advance
by `δ`; then the rate limiter gates a fetch to `domain`. -/
def rlRun (rate : ℚ) : List (String × ℚ) → RLState → RLState
  | [], s => s
  | (d, δ) :: ops, s => rlRun rate ops (rlWait rate d { s with clock := s.clock + δ })

/-- The fetch timestamps of one domain, in order. -/
def timesFor (domain : String) (fetches : List (String × ℚ)) : List ℚ :=
  fetches.filterMap (fun p => if p.1 = domain then some p.2 else none)

def initRLState : RLState := { clock := 0, last := fun _ => none, fetches := [] }

/-- Consecutive fetches to one domain are spaced by at least `1/rate`. -/
def Spaced (rate : ℚ) (l : List ℚ) : Prop :=
  List.Chain' (fun a b => a + 1 / rate ≤ b) l

/-- The per-domain invariant of the sequential rate limiter. -/
def RLInv (rate : ℚ) (s : RLState) : Prop :=
  ∀ d, Spaced rate (timesFor d s.fetches) ∧
    (match s.last d with
     | none => timesFor d s.fetches = []
     | some t => (timesFor d s.fetches).getLast? = some t)

theorem timesFor_append_other (dQ domain : String) (c : ℚ)
    (f : List (String × ℚ)) (h : domain ≠ dQ) :
    timesFor dQ (f ++ [(domain, c)]) = timesFor dQ f := by
  simp [timesFor, List.filterMap_append, h]

theorem timesFor_append_self (domain : String) (c : ℚ) (f : List (String × ℚ)) :
    timesFor domain (f ++ [(domain, c)]) = timesFor domain f ++ [c] := by
  simp [timesFor, List.filterMap_append]

theorem RLInv_last_case (s2 : RLState) (d : String) (c : ℚ)
    (hl : s2.last d = some c)
    (hg : (timesFor d s2.fetches).getLast? = some c) :
    (match s2.last d with
     | none => timesFor d s2.fetches = []
     | some t => (timesFor d s2.fetches).getLast? = some t) := by
  rw [hl]
  exact hg

theorem rlWait_inv (rate : ℚ) (domain : String) (s : RLState)
    (hinv : RLInv rate s) : RLInv rate (rlWait rate domain s) := by
  intro d
  by_cases hd : d = domain
  · subst hd
    rcases hlast : s.last d with _ | t
    · have hempty : timesFor d s.fetches = [] := by
        have h2 := (hinv d).2
        rw [hlast] at h2
        exact h2
      have hfetchEq : (rlWait rate d s).fetches = s.fetches ++ [(d, s.clock)] := by
        simp only [rlWait, hlast]
      have hlastEq : (rlWait rate d s).last d = some s.clock := by
        simp [rlWait, hlast]
      constructor
      · simp only [Spaced]
        rw [hfetchEq, timesFor_append_self, hempty]
        exact List.chain'_singleton _
      · refine RLInv_last_case _ _ _ hlastEq ?_
        rw [hfetchEq, timesFor_append_self, hempty]
        rfl
    · have hlq : (timesFor d s.fetches).getLast? = some t := by
        have h2 := (hinv d).2
        rw [hlast] at h2
        exact h2
      have hfetchEq : (rlWait rate d s).fetches = s.fetches ++
          [(d, if 0 < 1 / rate - (s.clock - t) then s.clock + (1 / rate - (s.clock - t))
               else s.clock)] := by
        simp only [rlWait, hlast]
      have hlastEq : (rlWait rate d s).last d =
          some (if 0 < 1 / rate - (s.clock - t) then s.clock + (1 / rate - (s.clock - t))
                else s.clock) := by
        simp [rlWait, hlast]
      constructor
      · simp only [Spaced]
        rw [hfetchEq, timesFor_append_self, List.chain'_append]
        refine ⟨(hinv d).1, List.chain'_singleton _, ?_⟩
        intro x hx y hy
        rw [hlq] at hx
        simp only [Option.mem_def, Option.some.injEq] at hx
        simp only [List.head?_cons, Option.mem_def, Option.some.injEq] at hy
        subst hx
        subst hy
        split_ifs with hpos
        · linarith
        · linarith
      · refine RLInv_last_case _ _ _ hlastEq ?_
        rw [hfetchEq, timesFor_append_self]
        exact List.getLast?_concat _
  · have hne : domain ≠ d := fun h => hd h.symm
    obtain ⟨c, hfetchEq⟩ : ∃ c, (rlWait rate domain s).fetches = s.fetches ++ [(domain, c)] := by
      rcases hlast : s.last domain with _ | t <;>
        (simp only [rlWait, hlast]; exact ⟨_, rfl⟩)
    have hlastEq : (rlWait rate domain s).last d = s.last d := by
      rcases hlast : s.last domain with _ | t <;> simp [rlWait, hlast, hd]
    constructor
    · simp only [Spaced]
      rw [hfetchEq, timesFor_append_other d domain _ _ hne]
      exact (hinv d).1
    · rw [hlastEq, hfetchEq, timesFor_append_other d domain _ _ hne]
      exact (hinv d).2

theorem rlRun_inv (rate : ℚ) (ops : List (String × ℚ)) (s : RLState)
    (hinv : RLInv rate s) : RLInv rate (rlRun rate ops s) := by
  induction ops generalizing s with
  | nil => exact hinv
  | cons op rest ih =>
    rcases op with ⟨d, δ⟩
    simp only [rlRun]
    refine ih _ (rlWait_inv rate d _ ?_)
    exact hinv

/-- C4 (amended): in a sequential execution, for any single domain the
interval between two consecutive fetches to that domain is never less
than `1/rate` seconds — `rate_limit_wait` sleeps for the remainder of
the minimum interval since the last recorded request before stamping
the domain.  (As stated, the claim also covers concurrent workers; the
interleaved counterexample shows that part fails.) -/
theorem C4_rate_limit_spacing (rate : ℚ) (ops : List (String × ℚ)) (d : String) :
    Spaced rate (timesFor d (rlRun rate ops initRLState).fetches) :=
  (rlRun_inv rate ops initRLState
    (fun _ => ⟨List.chain'_nil, rfl⟩) d).1

/-! ### Interleaved rate limiter (the race behind C4)

`rate_limit_wait` / `RateLimiter.wait` take no lock, so between one
thread reading `last_request_time[domain]` and writing it back another
thread can do the same.  A thread is split at that point into two
atomic halves: `read` computes the wake-up time from the current
timestamps, `fire` (after the sleep) stamps the domain and issues the
fetch.  Sleeping threads wake concurrently, so `fire` sets the clock to
the maximum of the current clock and the wake-up time. -/

inductive RLHalf where
  | read
  | fire
deriving Repr, DecidableEq

structure RLWorker where
  prog : List RLHalf
  wake : ℚ
deriving Repr, DecidableEq

structure RLCState where
  clock : ℚ
  last : Option ℚ
  fetches : List ℚ
deriving Repr, DecidableEq

/-- One scheduler step: run the next half of worker `k` (out-of-range
indices and finished workers are no-ops). -/
def rlcStep (rate : ℚ) (ws : List RLWorker) (st : RLCState) (k : Nat) :
    List RLWorker × RLCState :=
  match ws[k]? with
  | none => (ws, st)
  | some w =>
    match w.prog with
    | [] => (ws, st)
    | RLHalf.read :: rest =>
      let wake :=
        match st.last with
        | some t =>
          let delay := 1 / rate - (st.clock - t)
          if 0 < delay then st.clock + delay else st.clock
        | none => st.clock
      (ws.set k { prog := rest, wake := wake }, st)
    | RLHalf.fire :: rest =>
      let c := if st.clock ≤ w.wake then w.wake else st.clock
      (ws.set k { prog := rest, wake := w.wake },
       { clock := c, last := some c, fetches := st.fetches ++ [c] })

def rlcRun (rate : ℚ) : List Nat → List RLWorker × RLCState → List RLWorker × RLCState
  | [], x => x
  | k :: sched, x => rlcRun rate sched (rlcStep rate x.1 x.2 k)

/-- C4 counterexample: with `rate = 2` (minimum interval `1/2`), two
workers that both read the domain timestamp before either writes it
back fire their fetches at the same instant: the interval between the
two consecutive fetches to the domain is `0 < 1/2`. -/
theorem C4_counterexample :
    (rlcRun 2 [0, 1, 0, 1]
        ([⟨[RLHalf.read, RLHalf.fire], 0⟩, ⟨[RLHalf.read, RLHalf.fire], 0⟩],
         ⟨0, some 0, []⟩)).2.fetches = [1/2, 1/2] ∧
      ¬ Spaced 2 (rlcRun 2 [0, 1, 0, 1]
        ([⟨[RLHalf.read, RLHalf.fire], 0⟩, ⟨[RLHalf.read, RLHalf.fire], 0⟩],
         ⟨0, some 0, []⟩)).2.fetches := by
  have hf : (rlcRun 2 [0, 1, 0, 1]
      ([⟨[RLHalf.read, RLHalf.fire], 0⟩, ⟨[RLHalf.read, RLHalf.fire], 0⟩],
       ⟨0, some 0, []⟩)).2.fetches = [1/2, 1/2] := by
    norm_num [rlcRun, rlcStep]
  refine ⟨hf, ?_⟩
  rw [Spaced, hf]
  simp only [List.chain'_cons, List.chain'_singleton, and_true]
  intro hle
  norm_num at hle

/-! ### Interleaved dedup (the race behind C1)

The dedup-relevant steps of `download_image` as executed by one worker
thread: the `downloaded_hashes` membership check (line 413), the file
write (line 454), and the success recording (line 493).  No lock
guards the set, so the three steps of different workers interleave. -/

inductive DedupStep where
  | check
  | writeFile
  | record
deriving Repr, DecidableEq

structure DedupWorker where
  url : String
  prog : List DedupStep
deriving Repr, DecidableEq

structure DedupState where
  downloadedHashes : List String
  filesWritten : List String
deriving Repr, DecidableEq

def dedupStep (md5fn : String → String) (ws : List DedupWorker)
    (st : DedupState) (k : Nat) : List DedupWorker × DedupState :=
  match ws[k]? with
  | none => (ws, st)
  | some w =>
    match w.prog with
    | [] => (ws, st)
    | DedupStep.check :: rest =>
      if st.downloadedHashes.contains (md5fn (normalizeUrl w.url)) then
        (ws.set k { w with prog := [] }, st)
      else (ws.set k { w with prog := rest }, st)
    | DedupStep.writeFile :: rest =>
      (ws.set k { w with prog := rest },
       { st with filesWritten := st.filesWritten ++ [normalizeUrl w.url] })
    | DedupStep.record :: rest =>
      (ws.set k { w with prog := rest },
       { st with downloadedHashes := st.downloadedHashes ++ [md5fn (normalizeUrl w.url)] })

def dedupRun (md5fn : String → String) :
    List Nat → List DedupWorker × DedupState → List DedupWorker × DedupState
  | [], x => x
  | k :: sched, x => dedupRun md5fn sched (dedupStep md5fn x.1 x.2 k)

/-- C1 counterexample: two concurrent workers given the same media URL
both pass the fingerprint check before either records it, and both
persist a file — two files are written for one normalized URL, while a
sequential schedule of the same two candidates writes exactly one. -/
theorem C1_concurrent_counterexample :
    (dedupRun (fun s => s) [0, 1, 0, 1, 0, 1]
        ([⟨"https://example.com/pic.jpg", [DedupStep.check, DedupStep.writeFile, DedupStep.record]⟩,
          ⟨"https://example.com/pic.jpg", [DedupStep.check, DedupStep.writeFile, DedupStep.record]⟩],
         ⟨[], []⟩)).2.filesWritten.count (normalizeUrl "https://example.com/pic.jpg") = 2 ∧
      (dedupRun (fun s => s) [0, 0, 0, 1, 1, 1]
        ([⟨"https://example.com/pic.jpg", [DedupStep.check, DedupStep.writeFile, DedupStep.record]⟩,
          ⟨"https://example.com/pic.jpg", [DedupStep.check, DedupStep.writeFile, DedupStep.record]⟩],
         ⟨[], []⟩)).2.filesWritten.count (normalizeUrl "https://example.com/pic.jpg") = 1 := by
  refine ⟨?_, ?_⟩ <;> decide

/-! ## Dailymotion resolver
(VideoDownloader.extract_dailymotion_video_url, video_downloader.py
lines 440-599)

The six regex/JSON extraction primitives are embedded as the data they
would produce from the fetched embed-page markup; the control flow over
them follows the source exactly: each strategy is tried in order and
the first success returns. -/

structure DMEmbedHtml where
  /-- Strategy 1 input: the result of the `__PLAYER_CONFIG__` regex and
  `json.loads` — `none` when the regex fails or the JSON does not
  parse, `some m` the value of `criticalMetadata.manifestUrl` (absent
  when the key is missing). -/
  playerConfig : Option (Option String)
  /-- Strategy 2 input: the first match of
  `"manifestUrl"\s*:\s*"(https://[^"]+)"`. -/
  manifestMatch : Option String
  /-- Strategy 3 input: all `.m3u8` URLs found, in markup order. -/
  m3u8Urls : List String
  /-- Strategy 4 input: all `.mpd` URLs found, in markup order. -/
  mpdUrls : List String
  /-- Strategy 5 input: the prefixes of the `/video/<n>.m4s` segment
  URLs found; `re.sub` derives the manifest as `base ++ "/manifest.mpd"`. -/
  m4sBases : List String
  /-- Strategy 6 input: all `.mp4` URLs found, in markup order. -/
  mp4Urls : List String
deriving Repr, DecidableEq

def boolNat (b : Bool) : Nat := if b then 1 else 0

/-- The key of `max(urls, key=lambda x: ('cdndirector' in x, 'manifest' in x, len(x)))`. -/
def dmKey (x : String) : Nat × Nat × Nat :=
  (boolNat (subOf "cdndirector" x), boolNat (subOf "manifest" x), x.length)

/-- Strict lexicographic comparison of the tuple keys, as Python
compares tuples. -/
def tripleLt (a b : Nat × Nat × Nat) : Bool :=
  decide (a.1 < b.1) ||
    (decide (a.1 = b.1) &&
      (decide (a.2.1 < b.2.1) ||
        (decide (a.2.1 = b.2.1) && decide (a.2.2 < b.2.2))))

/-- Python `max(xs, key=k)`: the first element attaining the maximal
key — a later element replaces the current best only when strictly
greater. -/
def pyMax (lt : String → String → Bool) : List String → Option String
  | [] => none
  | x :: xs => some (xs.foldl (fun best y => if lt best y then y else best) x)

def dmBest (urls : List String) : Option String :=
  pyMax (fun a b => tripleLt (dmKey a) (dmKey b)) urls

def lenBest (urls : List String) : Option String :=
  pyMax (fun a b => decide (a.length < b.length)) urls

/-- Strategy 6 keeps only URLs with no `poster` and no `thumb` substring. -/
def notPosterThumb (u : String) : Bool :=
  !(subOf "poster" u) && !(subOf "thumb" u)

def strategy1 (h : DMEmbedHtml) : Option String :=
  match h.playerConfig with
  | some (some m) => some m
  | _ => none

def strategy2 (h : DMEmbedHtml) : Option String := h.manifestMatch

def strategy3 (h : DMEmbedHtml) : Option String := dmBest h.m3u8Urls

def strategy4 (h : DMEmbedHtml) : Option String := dmBest h.mpdUrls

def strategy5 (h : DMEmbedHtml) : Option String :=
  (h.m4sBases.head?).map (fun b => b ++ "/manifest.mpd")

def strategy6 (h : DMEmbedHtml) : Option String :=
  lenBest (h.mp4Urls.filter notPosterThumb)

/-- The resolver control flow of lines 473-592: each strategy is tried
in order; a successful strategy returns immediately. -/
def extractDailymotionVideoUrl (h : DMEmbedHtml) : Option String :=
  match h.playerConfig with
  | some (some m) => some m
  | _ =>
    match h.manifestMatch with
    | some m => some m
    | none =>
      match dmBest h.m3u8Urls with
      | some u => some u
      | none =>
        match dmBest h.mpdUrls with
        | some u => some u
        | none =>
          match h.m4sBases with
          | b :: _ => some (b ++ "/manifest.mpd")
          | [] =>
            match lenBest (h.mp4Urls.filter notPosterThumb) with
            | some u => some u
            | none => none

/-- First-success combinator over the ordered strategy results. -/
def firstSome : List (Option String) → Option String
  | [] => none
  | o :: rest =>
    match o with
    | some x => some x
    | none => firstSome rest

/-- C5: the resolver attempts its six strategies strictly in order and
returns the first success; in particular when the player-config JSON
yields a manifest URL it is returned regardless of any raw `.mp4` URL
in the markup. -/
theorem C5_resolver_ordering :
    (∀ h : DMEmbedHtml,
      extractDailymotionVideoUrl h =
        firstSome [strategy1 h, strategy2 h, strategy3 h,
          strategy4 h, strategy5 h, strategy6 h]) ∧
      (∀ (h : DMEmbedHtml) (m : String),
        h.playerConfig = some (some m) →
        extractDailymotionVideoUrl h = some m) := by
  constructor
  · intro h
    rcases h with ⟨pc, mm, m3, mpd, m4, mp4⟩
    rcases pc with _ | pc2
    · rcases mm with _ | m
      · cases hm3 : dmBest m3 <;>
          cases hm4 : dmBest mpd <;>
          cases m4 <;>
          cases hm6 : lenBest (mp4.filter notPosterThumb) <;>
          simp [extractDailymotionVideoUrl, firstSome, strategy1, strategy2,
            strategy3, strategy4, strategy5, strategy6, hm3, hm4, hm6]
      · simp [extractDailymotionVideoUrl, firstSome, strategy1, strategy2]
    · rcases pc2 with _ | m
      · rcases mm with _ | m
        · cases hm3 : dmBest m3 <;>
            cases hm4 : dmBest mpd <;>
            cases m4 <;>
            cases hm6 : lenBest (mp4.filter notPosterThumb) <;>
            simp [extractDailymotionVideoUrl, firstSome, strategy1, strategy2,
              strategy3, strategy4, strategy5, strategy6, hm3, hm4, hm6]
        · simp [extractDailymotionVideoUrl, firstSome, strategy1, strategy2]
      · simp [extractDailymotionVideoUrl, firstSome, strategy1]
  · intro h m hpc
    simp [extractDailymotionVideoUrl, hpc]

theorem C5_resolver_ordering_witness :
    extractDailymotionVideoUrl
        { playerConfig := some (some "https://cdn.example/manifest.m3u8"),
          manifestMatch := none, m3u8Urls := [], mpdUrls := [], m4sBases := [],
          mp4Urls := ["https://cdn.example/video.mp4"] } =
      some "https://cdn.example/manifest.m3u8" :=
  C5_resolver_ordering.2
    { playerConfig := some (some "https://cdn.example/manifest.m3u8"),
      manifestMatch := none, m3u8Urls := [], mpdUrls := [], m4sBases := [],
      mp4Urls := ["https://cdn.example/video.mp4"] }
    "https://cdn.example/manifest.m3u8" rfl

/-! ## Robots gate and per-video dispatch
(VideoDownloader.check_robots, video_downloader.py lines 416-433;
VideoDownloader.process_video, lines 945-1017) -/

/-- `check_robots(url, is_media_file)`: `--ignore-robots` or the
media-file flag short-circuits to `True`; otherwise the cached robots
parser decides, any exception during the check defaulting to `True`
(`policy = none` models the exception path). -/
def checkRobots (ignoreRobots : Bool) (isMediaFile : Bool)
    (policy : Option Bool) : Bool :=
  if ignoreRobots || isMediaFile then true
  else
    match policy with
    | some b => b
    | none => true

structure VidRow where
  source : String
  video : String
  localPath : String
  status : String
  note : String
deriving Repr, DecidableEq

structure PVState where
  downloadedUrls : List String
  rows : List VidRow
  streamUrls : List String
deriving Repr, DecidableEq

/-- Environment of one `process_video` call: FFmpeg availability, the
robots inputs, the downloader outcomes and the generated output path. -/
structure PVEnv where
  ffmpegAvailable : Bool
  ignoreRobots : Bool
  robotsPolicy : Option Bool
  streamResult : Bool × String
  mp4Result : Bool × String
  outPath : String

/-- `process_video(video_url, source_url)`: skip `data:` URLs and
already-seen URLs, gate on `check_robots(normalized, is_media_file=True)`,
then dispatch on DASH / HLS / direct MP4, recording one audit row per
terminal outcome. -/
def processVideo (env : PVEnv) (videoUrl sourceUrl : String)
    (s : PVState) : PVState :=
  let normalized := vidNormalizeUrl videoUrl
  if strStartsWith "data:" normalized then s
  else if s.downloadedUrls.contains normalized then s
  else
    let s1 := { s with downloadedUrls := s.downloadedUrls ++ [normalized] }
    if !(checkRobots env.ignoreRobots true env.robotsPolicy) then
      { s1 with rows := s1.rows ++ [⟨sourceUrl, normalized, "", "robots_blocked", ""⟩] }
    else
      let urlLower := strLower normalized
      let isHls := subOf ".m3u8" urlLower
      let isDash := subOf ".mpd" urlLower || subOf ".m4s" urlLower
      if isDash then
        if env.ffmpegAvailable then
          if env.streamResult.1 then
            { s1 with rows := s1.rows ++
                [⟨sourceUrl, normalized, env.outPath, "converted_dash", env.streamResult.2⟩] }
          else
            { s1 with
                rows := s1.rows ++
                  [⟨sourceUrl, normalized, "", "conversion_failed", env.streamResult.2⟩],
                streamUrls := s1.streamUrls ++ [normalized] }
        else
          { s1 with
              rows := s1.rows ++
                [⟨sourceUrl, normalized, "", "dash_detected", "FFmpeg not available"⟩],
              streamUrls := s1.streamUrls ++ [normalized] }
      else if isHls then
        if env.ffmpegAvailable then
          if env.streamResult.1 then
            { s1 with rows := s1.rows ++
                [⟨sourceUrl, normalized, env.outPath, "converted_hls", env.streamResult.2⟩] }
          else
            { s1 with
                rows := s1.rows ++
                  [⟨sourceUrl, normalized, "", "conversion_failed", env.streamResult.2⟩],
                streamUrls := s1.streamUrls ++ [normalized] }
        else
          { s1 with
              rows := s1.rows ++
                [⟨sourceUrl, normalized, "", "hls_detected", "FFmpeg not available"⟩],
              streamUrls := s1.streamUrls ++ [normalized] }
      else
        if env.mp4Result.1 then
          { s1 with rows := s1.rows ++
              [⟨sourceUrl, normalized, env.outPath, "downloaded", env.mp4Result.2⟩] }
        else
          { s1 with rows := s1.rows ++
              [⟨sourceUrl, normalized, "", "failed", env.mp4Result.2⟩] }

/-- C9: `check_robots` returns `True` unconditionally whenever
`is_media_file` is `True`, and `process_video` — which always passes
`is_media_file=True` — can therefore never record a `robots_blocked`
row, regardless of the robots policy and of `--ignore-robots`. -/
theorem C9_robots_media_bypass :
    (∀ (ignoreRobots : Bool) (policy : Option Bool),
        checkRobots ignoreRobots true policy = true) ∧
      (∀ (env : PVEnv) (videoUrl sourceUrl : String) (s : PVState),
        ∀ row ∈ (processVideo env videoUrl sourceUrl s).rows,
          row ∈ s.rows ∨ row.status ≠ "robots_blocked") := by
  have hcr : ∀ (ignoreRobots : Bool) (policy : Option Bool),
      checkRobots ignoreRobots true policy = true := by
    intro ignoreRobots policy
    simp [checkRobots]
  refine ⟨hcr, ?_⟩
  intro env videoUrl sourceUrl s row hrow
  simp only [processVideo, hcr env.ignoreRobots env.robotsPolicy,
    Bool.not_true] at hrow
  split_ifs at hrow <;>
    first
      | exact Or.inl hrow
      | (simp only [List.mem_append, List.mem_singleton] at hrow
         rcases hrow with h | h
         · exact Or.inl h
         · subst h
           exact Or.inr (by simp_all))
      | assumption
      | simp_all

theorem C9_robots_media_bypass_witness :
    checkRobots false true (some false) = true ∧
      ((⟨"https://a.com/", "https://a.com/v.mp4", "out/v.mp4", "downloaded", "ok"⟩ : VidRow) ∈
          (⟨[], [], []⟩ : PVState).rows ∨
        (⟨"https://a.com/", "https://a.com/v.mp4", "out/v.mp4", "downloaded", "ok"⟩ : VidRow).status ≠
          "robots_blocked") :=
  ⟨C9_robots_media_bypass.1 false (some false),
   C9_robots_media_bypass.2
     { ffmpegAvailable := true, ignoreRobots := false, robotsPolicy := some false,
       streamResult := (true, "ok"), mp4Result := (true, "ok"), outPath := "out/v.mp4" }
     "https://a.com/v.mp4" "https://a.com/" ⟨[], [], []⟩
     ⟨"https://a.com/", "https://a.com/v.mp4", "out/v.mp4", "downloaded", "ok"⟩
     (by decide)⟩

end MediaDL
